import Mathlib

/-!
BMP reader, writer and `rotateRight` of `seperate/Rotate_Right.c`

A shallow embedding of the three functions of the C source, followed by the
properties of the bitmap codec and of the in-place transform.

Conventions of the embedding:

* a byte (`uchar`) is a `Fin 256`; a file is the list of its bytes;
* `uint32` values are natural numbers below `2^32`, every unsigned operation is
  reduced modulo `2^32` (`uadd`, `usub`, `umul`);
* `int` values are integers, a conversion from `unsigned` to `int` is the
  two's-complement one (`toInt`), and an `int` meeting a `uint32` operand is
  converted to `unsigned` first (`ofInt`), as C's usual arithmetic conversions do;
* a pointer into the pixel buffer is its (signed) byte offset from `pixels`.
-/

namespace BMP

/-! ## Machine arithmetic -/

/-- The C type `unsigned char`. -/
abbrev uchar := Fin 256

/-- The byte holding the low eight bits of `n`. -/
def byte (n : Nat) : uchar := ⟨n % 256, Nat.mod_lt n (by decide)⟩

/-- Unsigned 32-bit addition. -/
def uadd (a b : Nat) : Nat := (a + b) % 4294967296

/-- Unsigned 32-bit subtraction `a - b`. -/
def usub (a b : Nat) : Nat := (a % 4294967296 + 4294967296 - b % 4294967296) % 4294967296

/-- Unsigned 32-bit multiplication. -/
def umul (a b : Nat) : Nat := (a * b) % 4294967296

/-- Conversion of an `int` to `unsigned int`. -/
def ofInt (x : Int) : Nat := (x % 4294967296).toNat

/-- Conversion of an `unsigned int` to `int` (two's complement). -/
def toInt (n : Nat) : Int :=
  if n % 4294967296 < 2147483648 then ((n % 4294967296 : Nat) : Int)
  else ((n % 4294967296 : Nat) : Int) - 4294967296

/-- Product of two `int`s, wrapped to 32 bits. -/
def imul (a b : Int) : Int := toInt (ofInt (a * b))

/-- Conversion of an `int16` bit pattern (two bytes read from the file) to
`uint32`, which sign-extends: `(uint32)bitsPerPixel`. -/
def int16ToUInt32 (bits : Nat) : Nat :=
  if bits % 65536 < 32768 then bits % 65536 else bits % 65536 + 4294901760

/-- Spacing of the `float` values around a `uint32` value `w`: below `2^24`
every integer is a `float`, and the spacing doubles with each further bit. -/
def floatUlp (w : Nat) : Nat :=
  if w < 16777216 then 1 else if w < 33554432 then 2 else if w < 67108864 then 4
  else if w < 134217728 then 8 else if w < 268435456 then 16
  else if w < 536870912 then 32 else if w < 1073741824 then 64
  else if w < 2147483648 then 128 else 256

/-- The conversion `(float)w` of a `uint32`: the nearest value with a 24-bit
significand, ties to the even significand (IEEE 754 binary32, default
rounding). The result is an integer, returned exactly. -/
def toFloat (w : Nat) : Nat :=
  let u := floatUlp w
  let q := w / u
  let r := w % u
  if 2 * r < u then q * u
  else if u < 2 * r then (q + 1) * u
  else if q % 2 = 0 then q * u else (q + 1) * u

/-- The expression `(int)(4 * ceil((float)width/4.0f))` of `readImage` and
`writeImage`. Dividing a `float` by 4 is exact, `ceil` and the product are
computed in `double`, where they are exact. A product of `2^31` or more does not
fit an `int`; the conversion is then the x86-64 one (`INT_MIN`). -/
def ceil4 (width : Nat) : Int :=
  let v := 4 * ((toFloat width + 3) / 4)
  if v < 2147483648 then (v : Int) else -2147483648

/-- Row size on disk,
`int paddedRowSize = (int)(4 * ceil((float)width/4.0f)) * bytesPerPixel`. -/
def paddedRowSize (width bytesPerPixel : Nat) : Int :=
  toInt (umul (ofInt (ceil4 width)) bytesPerPixel)

/-- Row size in memory, `int unpaddedRowSize = width * bytesPerPixel`. -/
def unpaddedRowSize (width bytesPerPixel : Nat) : Int :=
  toInt (umul width bytesPerPixel)

/-! ## Files and memory -/

/-- Little-endian bytes of the `n`-byte object holding `v`, as `fwrite` emits
them. -/
def le (n v : Nat) : List uchar := (List.range n).map fun (k : Nat) => byte (v / 256 ^ k)

/-- Value of a little-endian byte sequence. -/
def ofLE (bs : List uchar) : Nat := bs.foldr (fun b acc => b.val + 256 * acc) 0

/-- The bytes `fseek(f, pos, SEEK_SET); fread(dst, 1, n, f)` obtains: at most
`n`, fewer at the end of the file. -/
def fread (file : List uchar) (pos n : Nat) : List uchar := (file.drop pos).take n

/-- Read of an `n`-byte variable at `pos`. Bytes the file does not supply keep
what the variable held before (`prior`). -/
def freadVar (file : List uchar) (pos n prior : Nat) : Nat :=
  let got := fread file pos n
  ofLE (got ++ (le n prior).drop got.length)

/-- The byte at `pixels[k]`. Inside the buffer it is the buffer's byte; at any
other offset it is what the surrounding memory holds (`outside`). -/
def peek (pixels : List uchar) (outside : Int → uchar) (k : Int) : uchar :=
  if 0 ≤ k ∧ k < pixels.length then pixels.getD k.toNat 0 else outside k

/-- Copy of `bytes` to the buffer at byte offset `off` (the effect of `fread`
on its destination); positions outside the buffer are not part of the result. -/
def blit (buf : List uchar) (off : Int) (bytes : List uchar) : List uchar :=
  (List.range buf.length).map fun (idx : Nat) =>
    if off ≤ (idx : Int) ∧ (idx : Int) < off + bytes.length
    then bytes.getD ((idx : Int) - off).toNat 0 else buf.getD idx 0

/-- The `n` bytes of `file` at offset `pos` are the little-endian encoding of the
value `v`, which fits `n` bytes. -/
def fieldAt (file : List uchar) (pos n v : Nat) : Prop :=
  fread file pos n = le n v ∧ v < 256 ^ n

instance (file : List uchar) (pos n v : Nat) : Decidable (fieldAt file pos n v) :=
  inferInstanceAs (Decidable (_ ∧ _))

/-- Row `r` of a buffer whose rows are `rowSize` bytes long. -/
def memRow (pixels : List uchar) (rowSize r : Nat) : List uchar :=
  (pixels.drop (r * rowSize)).take rowSize

/-- Offset `0x000A` of the pixel data offset field. -/
def BITMAP_DATA_OFFSET : Nat := 10
/-- Offset `0x0012` of the width field. -/
def WIDTH_OFFSET : Nat := 18
/-- Offset `0x0016` of the height field. -/
def HEIGHT_OFFSET : Nat := 22
/-- Offset `0x001C` of the bits-per-pixel field. -/
def BITS_PER_PIXEL_OFFSET : Nat := 28
/-- Size of the file header. -/
def HEADER_SIZE : Nat := 14
/-- Size of the info header. -/
def INFO_HEADER_SIZE : Nat := 40
/-- Compression code written. -/
def NO_COMPRESION : Nat := 0
/-- Colour count written. -/
def MAX_NUMBER_OF_COLORS : Nat := 0
/-- Important colour count written. -/
def ALL_COLORS_REQUIRED : Nat := 0

/-! ## `readImage` -/

/-- What `readImage` hands back through its pointer arguments. -/
structure Image where
  width : Nat
  height : Nat
  bytesPerPixel : Nat
  pixels : List uchar
deriving DecidableEq

/-- Indeterminate contents that `readImage` never initialises itself: the four
variables it reads into, and the block `malloc` returns. -/
structure Stale where
  dataOffset : Nat
  width : Nat
  height : Nat
  bitsPerPixel : Nat
  heap : Nat → uchar

/-- One iteration of the row loop of `readImage`: `fseek` to
`dataOffset + i * paddedRowSize`, `fread` `unpaddedRowSize` bytes to
`currentRowPointer`, which started at `(height-1) * unpaddedRowSize` and has been
decremented `i` times. -/
def readRow (imageFile : List uchar) (dataOffset height : Nat)
    (paddedRowSize unpaddedRowSize : Int) (pixels : List uchar) (i : Nat) : List uchar :=
  blit pixels
    ((umul (usub height 1) (ofInt unpaddedRowSize) : Nat) - (i : Int) * unpaddedRowSize)
    (fread imageFile (uadd dataOffset (ofInt (imul i paddedRowSize))) unpaddedRowSize.toNat)

/-- The function `readImage`. `file` is `none` when `fopen` fails, and the
result is `none` exactly when the C function returns `false`. The block
`malloc(totalSize)` returns has `totalSize` bytes of indeterminate content
(`stale.heap`). The C code does not test the result of `malloc`: with a
`totalSize` that wrapped around to a negative `int` it writes through a null
pointer. That case is outside this definition, which then counts the size (and
a negative `fread` count) as zero bytes; the properties of `readImage` below are
stated for sizes and offsets that fit an `int`. -/
def readImage (file : Option (List uchar)) (stale : Stale) : Option Image :=
  match file with
  | none => none
  | some imageFile =>
    let dataOffset := freadVar imageFile BITMAP_DATA_OFFSET 4 stale.dataOffset
    let width := freadVar imageFile WIDTH_OFFSET 4 stale.width
    let height := freadVar imageFile HEIGHT_OFFSET 4 stale.height
    let bitsPerPixel := freadVar imageFile BITS_PER_PIXEL_OFFSET 2 stale.bitsPerPixel
    let bytesPerPixel := int16ToUInt32 bitsPerPixel / 8
    let paddedRowSize := paddedRowSize width bytesPerPixel
    let unpaddedRowSize := unpaddedRowSize width bytesPerPixel
    let totalSize := toInt (umul (ofInt unpaddedRowSize) height)
    let pixels := (List.range totalSize.toNat).map stale.heap
    some {
      width := width
      height := height
      bytesPerPixel := bytesPerPixel
      pixels := (List.range height).foldl
        (readRow imageFile dataOffset height paddedRowSize unpaddedRowSize) pixels }

/-! ## `writeImage` -/

/-- The `fileSize` variable of `writeImage`,
`paddedRowSize * height + HEADER_SIZE + INFO_HEADER_SIZE`. -/
def fileSize (width height bytesPerPixel : Nat) : Nat :=
  uadd (uadd (umul (ofInt (paddedRowSize width bytesPerPixel)) height) HEADER_SIZE)
    INFO_HEADER_SIZE

/-- The `imageSize` variable of `writeImage`, `width * height * bytesPerPixel`. -/
def imageSize (width height bytesPerPixel : Nat) : Nat :=
  umul (umul width height) bytesPerPixel

/-- The 54 header bytes, one `fwrite` after the other. -/
def writeHeader (width height bytesPerPixel : Nat) : List uchar :=
  [byte 66] ++ [byte 77]
    ++ le 4 (fileSize width height bytesPerPixel)
    ++ le 4 0
    ++ le 4 (HEADER_SIZE + INFO_HEADER_SIZE)
    ++ le 4 INFO_HEADER_SIZE
    ++ le 4 width
    ++ le 4 height
    ++ le 2 1
    ++ le 2 (umul bytesPerPixel 8)
    ++ le 4 NO_COMPRESION
    ++ le 4 (imageSize width height bytesPerPixel)
    ++ le 4 3937
    ++ le 4 3937
    ++ le 4 MAX_NUMBER_OF_COLORS
    ++ le 4 ALL_COLORS_REQUIRED

/-- One iteration of the row loop of `writeImage`:
`fwrite(&pixels[pixelOffset], 1, paddedRowSize, outputFile)` with
`pixelOffset = ((height - 1) - i) * unpaddedRowSize`: `paddedRowSize` bytes of
memory, starting at `pixels + pixelOffset` (a count that wrapped around to a
negative `int` counts as zero bytes). -/
def writeRow (pixels : List uchar) (outside : Int → uchar) (width height bytesPerPixel : Nat)
    (i : Nat) : List uchar :=
  let pixelOffset : Int :=
    toInt (umul (usub (usub height 1) i) (ofInt (unpaddedRowSize width bytesPerPixel)))
  (List.range (paddedRowSize width bytesPerPixel).toNat).map fun (c : Nat) =>
    peek pixels outside (pixelOffset + (c : Int))

/-- The offsets from `pixels` of the bytes the `fwrite` of disk row `i` reads:
`pixelOffset`, `pixelOffset + 1`, ..., `paddedRowSize` of them. -/
def writeRowReads (width height bytesPerPixel i : Nat) : List Int :=
  (List.range (paddedRowSize width bytesPerPixel).toNat).map fun (c : Nat) =>
    toInt (umul (usub (usub height 1) i) (ofInt (unpaddedRowSize width bytesPerPixel)))
      + (c : Int)

/-- Every offset from `pixels` that the row loop of `writeImage` reads. -/
def writeImageReads (width height bytesPerPixel : Nat) : List Int :=
  (List.range height).flatMap (writeRowReads width height bytesPerPixel)

/-- The function `writeImage`: the bytes of the file it produces. -/
def writeImage (pixels : List uchar) (outside : Int → uchar)
    (width height bytesPerPixel : Nat) : List uchar :=
  writeHeader width height bytesPerPixel
    ++ (List.range height).flatMap (writeRow pixels outside width height bytesPerPixel)

/-! ## `rotateRight` -/

/-- The `bytesPerPixel` bytes of the pixel in row `i`, column `j` of a buffer
whose rows hold `width` pixels. -/
def pixelAt (pixels : List uchar) (width bytesPerPixel i j : Nat) : List uchar :=
  (pixels.drop ((i * width + j) * bytesPerPixel)).take bytesPerPixel

/-- The three statements of a swap: `tempPixel = *(pixels + a);`
`*(pixels + a) = *(pixels + b); *(pixels + b) = tempPixel;`. The C code makes no
bounds test: a swap that touches memory outside the buffer exchanges a byte with
that memory, which a list of the buffer's bytes cannot express. Here such a swap
leaves the buffer as it is, and every property of `rotateRight` below is stated
for a buffer of `width * height * bytesPerPixel` bytes whose size fits an `int`,
where all swaps are inside the buffer. -/
def swapBytes (pixels : List uchar) (ab : Int × Int) : List uchar :=
  if 0 ≤ ab.1 ∧ ab.1 < pixels.length ∧ 0 ≤ ab.2 ∧ ab.2 < pixels.length then
    let tempPixel := pixels.getD ab.1.toNat 0
    (pixels.set ab.1.toNat (pixels.getD ab.2.toNat 0)).set ab.2.toNat tempPixel
  else pixels

/-- Two swaps touch four different bytes. -/
def disjointSwaps (p q : Int × Int) : Prop :=
  p.1 ≠ q.1 ∧ p.1 ≠ q.2 ∧ p.2 ≠ q.1 ∧ p.2 ≠ q.2

/-- Offsets swapped by the per-pixel horizontal loops (passes 1 and 3) for
the rows `rows`:
`i * unpaddedRowSize + j * bytesPerPixel + k` and
`i * unpaddedRowSize + (width - 1 - j) * bytesPerPixel + k`. -/
def mirrorRows (rows : List Nat) (width bytesPerPixel : Nat) : List (Int × Int) :=
  rows.flatMap fun (i : Nat) =>
    (List.range (width / 2)).flatMap fun (j : Nat) =>
      (List.range bytesPerPixel).map fun (k : Nat) =>
        (imul i (unpaddedRowSize width bytesPerPixel) + (umul j bytesPerPixel : Nat) + (k : Int),
         imul i (unpaddedRowSize width bytesPerPixel)
           + (umul (usub (usub width 1) j) bytesPerPixel : Nat) + (k : Int))

/-- The swap of passes 1 and 3 for row `i`, column `j`, byte `k`: the pair of
offsets in the body of `mirrorRows`. -/
def mirrorSwap (width bytesPerPixel i j k : Nat) : Int × Int :=
  (imul i (unpaddedRowSize width bytesPerPixel) + (umul j bytesPerPixel : Nat) + (k : Int),
   imul i (unpaddedRowSize width bytesPerPixel)
     + (umul (usub (usub width 1) j) bytesPerPixel : Nat) + (k : Int))

/-- Swaps of the first loop nest, rows `0 .. height/2 - 1`. -/
def pass1 (width height bytesPerPixel : Nat) : List (Int × Int) :=
  mirrorRows (List.range (height / 2)) width bytesPerPixel

/-- Swaps of the second loop nest: `i * unpaddedRowSize + j` against
`(height - 1 - i) * unpaddedRowSize + j`, for `j < unpaddedRowSize / 2`. -/
def pass2 (width height bytesPerPixel : Nat) : List (Int × Int) :=
  (List.range (height / 2)).flatMap fun (i : Nat) =>
    (List.range (Int.tdiv (unpaddedRowSize width bytesPerPixel) 2).toNat).map fun (j : Nat) =>
      (imul i (unpaddedRowSize width bytesPerPixel) + (j : Int),
       ((umul (usub (usub height 1) i) (ofInt (unpaddedRowSize width bytesPerPixel)) : Nat) : Int)
         + (j : Int))

/-- The swap of pass 2 for row `i` and byte column `j`: the pair of offsets in
the body of `pass2`. -/
def columnSwap (width height bytesPerPixel i j : Nat) : Int × Int :=
  (imul i (unpaddedRowSize width bytesPerPixel) + (j : Int),
   ((umul (usub (usub height 1) i) (ofInt (unpaddedRowSize width bytesPerPixel)) : Nat) : Int)
     + (j : Int))

/-- Swaps of the third loop nest, rows `50 .. height - 1`. -/
def pass3 (width height bytesPerPixel : Nat) : List (Int × Int) :=
  mirrorRows (List.range' 50 (height - 50)) width bytesPerPixel

/-- Every swap `rotateRight` performs, in program order. -/
def rotateRightSwaps (width height bytesPerPixel : Nat) : List (Int × Int) :=
  pass1 width height bytesPerPixel ++ pass2 width height bytesPerPixel
    ++ pass3 width height bytesPerPixel

/-- Every byte offset `rotateRight` reads or writes. -/
def rotateRightAccesses (width height bytesPerPixel : Nat) : List Int :=
  (rotateRightSwaps width height bytesPerPixel).flatMap fun ab => [ab.1, ab.2]

/-- The function `rotateRight`: the buffer after the three passes. The `printf`
between passes 1 and 2 does not touch the buffer and is left out. -/
def rotateRight (pixels : List uchar) (width height bytesPerPixel : Nat) : List uchar :=
  (rotateRightSwaps width height bytesPerPixel).foldl swapBytes pixels



/-! ## Arithmetic without wrap-around -/

theorem uadd_eq {a b : Nat} (h : a + b < 4294967296) : uadd a b = a + b := by
  unfold uadd; omega

theorem usub_eq {a b : Nat} (ha : a < 4294967296) (h : b ≤ a) : usub a b = a - b := by
  unfold usub; omega

theorem umul_eq {a b : Nat} (h : a * b < 4294967296) : umul a b = a * b := by
  unfold umul; omega

theorem ofInt_natCast {n : Nat} (h : n < 4294967296) : ofInt (n : Int) = n := by
  unfold ofInt; omega

theorem toInt_eq {n : Nat} (h : n < 2147483648) : toInt n = (n : Int) := by
  unfold toInt; split <;> omega

theorem ofInt_toInt (n : Nat) : ofInt (toInt n) = n % 4294967296 := by
  unfold ofInt toInt; split <;> omega

theorem imul_natCast {a b : Nat} (h : a * b < 2147483648) :
    imul (a : Int) (b : Int) = ((a * b : Nat) : Int) := by
  unfold imul
  have h1 : ((a : Int) * (b : Int)) = ((a * b : Nat) : Int) := by push_cast; rfl
  rw [h1, ofInt_natCast (by omega), toInt_eq h]

theorem toFloat_of_lt {w : Nat} (h : w < 16777216) : toFloat w = w := by
  simp [toFloat, floatUlp, h, Nat.mod_one]

theorem ceil4_of_lt {w : Nat} (h : w < 16777216) :
    ceil4 w = ((4 * ((w + 3) / 4) : Nat) : Int) := by
  unfold ceil4
  rw [toFloat_of_lt h]
  have : 4 * ((w + 3) / 4) < 2147483648 := by omega
  simp only [this, if_true]

theorem paddedRowSize_eq {w bpp : Nat} (hw : w < 16777216)
    (h : 4 * ((w + 3) / 4) * bpp < 2147483648) :
    paddedRowSize w bpp = ((4 * ((w + 3) / 4) * bpp : Nat) : Int) := by
  unfold paddedRowSize
  rw [ceil4_of_lt hw, ofInt_natCast (by omega), umul_eq (by omega), toInt_eq h]

theorem unpaddedRowSize_eq {w bpp : Nat} (h : w * bpp < 2147483648) :
    unpaddedRowSize w bpp = ((w * bpp : Nat) : Int) := by
  unfold unpaddedRowSize
  rw [umul_eq (by omega), toInt_eq h]


/-! ## Little-endian fields -/

theorem le_two (v : Nat) : le 2 v = [byte v, byte (v / 256)] := by
  simp [le, List.range_succ]

theorem le_four (v : Nat) :
    le 4 v = [byte v, byte (v / 256), byte (v / 65536), byte (v / 16777216)] := by
  simp [le, List.range_succ]

theorem le_length (n v : Nat) : (le n v).length = n := by
  simp [le]

theorem ofLE_le_two (v : Nat) : ofLE (le 2 v) = v % 65536 := by
  rw [le_two]
  simp only [ofLE, List.foldr, byte]
  omega

theorem ofLE_le_four (v : Nat) : ofLE (le 4 v) = v % 4294967296 := by
  rw [le_four]
  simp only [ofLE, List.foldr, byte]
  omega

theorem writeHeader_length (w h bpp : Nat) : (writeHeader w h bpp).length = 54 := by
  simp [writeHeader, le_length]

/-- A field of the header read back from the file: the header is a prefix of
the file, so the bytes are those of the header. -/
theorem fread_writeImage_header (px : List uchar) (outside : Int → uchar) (w h bpp : Nat)
    {pos n : Nat} (hpn : pos + n ≤ 54) :
    fread (writeImage px outside w h bpp) pos n = fread (writeHeader w h bpp) pos n := by
  unfold fread writeImage
  rw [List.drop_append_of_le_length (by rw [writeHeader_length]; omega)]
  rw [List.take_append_of_le_length (by rw [List.length_drop, writeHeader_length]; omega)]

theorem freadVar_full {file : List uchar} {pos n : Nat} (prior : Nat)
    (h : pos + n ≤ file.length) : freadVar file pos n prior = ofLE (fread file pos n) := by
  unfold freadVar
  have hl : (fread file pos n).length = n := by
    unfold fread; rw [List.length_take, List.length_drop]; omega
  simp only [hl]
  rw [List.drop_of_length_le (by rw [le_length]), List.append_nil]

theorem writeHeader_fields (w h bpp : Nat) :
    fread (writeHeader w h bpp) 0 2 = [byte 66, byte 77]
    ∧ fread (writeHeader w h bpp) 2 4 = le 4 (fileSize w h bpp)
    ∧ fread (writeHeader w h bpp) 6 4 = le 4 0
    ∧ fread (writeHeader w h bpp) 10 4 = le 4 54
    ∧ fread (writeHeader w h bpp) 14 4 = le 4 40
    ∧ fread (writeHeader w h bpp) 18 4 = le 4 w
    ∧ fread (writeHeader w h bpp) 22 4 = le 4 h
    ∧ fread (writeHeader w h bpp) 26 2 = le 2 1
    ∧ fread (writeHeader w h bpp) 28 2 = le 2 (umul bpp 8)
    ∧ fread (writeHeader w h bpp) 30 4 = le 4 0
    ∧ fread (writeHeader w h bpp) 34 4 = le 4 (imageSize w h bpp)
    ∧ fread (writeHeader w h bpp) 38 4 = le 4 3937
    ∧ fread (writeHeader w h bpp) 42 4 = le 4 3937
    ∧ fread (writeHeader w h bpp) 46 4 = le 4 0
    ∧ fread (writeHeader w h bpp) 50 4 = le 4 0 := by
  simp only [writeHeader, le_four, le_two, fread, HEADER_SIZE, INFO_HEADER_SIZE, NO_COMPRESION,
    MAX_NUMBER_OF_COLORS, ALL_COLORS_REQUIRED]
  simp



/-- The least integer at or above `w / 4`, by integer division. -/
theorem natCeil_div_four (w : Nat) : ⌈(w : ℚ) / 4⌉₊ = (w + 3) / 4 := by
  have h1 : w ≤ 4 * ((w + 3) / 4) := by omega
  have h2 : 4 * ((w + 3) / 4) < w + 4 := by omega
  generalize (w + 3) / 4 = c at h1 h2 ⊢
  apply le_antisymm
  · rw [Nat.ceil_le]
    have h1q : (w : ℚ) ≤ 4 * (c : ℚ) := by exact_mod_cast h1
    linarith
  · rcases Nat.eq_zero_or_pos c with hc | hc
    · omega
    · have h3 : c - 1 < ⌈(w : ℚ) / 4⌉₊ := by
        rw [Nat.lt_ceil]
        have h4 : 4 * (c - 1) + 1 ≤ w := by omega
        have h4q : 4 * ((c - 1 : Nat) : ℚ) + 1 ≤ (w : ℚ) := by exact_mod_cast h4
        linarith
      omega

theorem le_two_umul_eight (bpp : Nat) : le 2 (umul bpp 8) = le 2 (bpp * 8 % 65536) := by
  rw [le_two, le_two]
  simp only [byte, umul, List.cons.injEq, Fin.mk.injEq, and_true]
  omega

theorem fileSize_lt (w h bpp : Nat) : fileSize w h bpp < 4294967296 := by
  unfold fileSize uadd; omega

theorem imageSize_lt (w h bpp : Nat) : imageSize w h bpp < 4294967296 := by
  unfold imageSize umul; omega

theorem imageSize_eq (w h bpp : Nat) : imageSize w h bpp = w * h * bpp % 4294967296 := by
  unfold imageSize umul
  rw [Nat.mod_mul_mod]

theorem fileSize_eq {w : Nat} (h bpp : Nat) (hw : w < 16777216) :
    fileSize w h bpp = (4 * ((w + 3) / 4) * bpp * h + 54) % 4294967296 := by
  unfold fileSize paddedRowSize
  rw [ofInt_toInt, ceil4_of_lt hw, ofInt_natCast (by omega)]
  unfold umul uadd HEADER_SIZE INFO_HEADER_SIZE
  rw [Nat.mod_mod, Nat.mod_mul_mod]
  omega


/-! ## Bytes of files and buffers -/

theorem getElem?_fread (file : List uchar) (pos n c : Nat) :
    (fread file pos n)[c]? = if c < n then file[pos + c]? else none := by
  unfold fread
  rw [List.getElem?_take, List.getElem?_drop]

theorem getElem?_memRow (pixels : List uchar) (rowSize r c : Nat) :
    (memRow pixels rowSize r)[c]? = if c < rowSize then pixels[r * rowSize + c]? else none := by
  unfold memRow
  rw [List.getElem?_take, List.getElem?_drop]

theorem fread_length_le (file : List uchar) (pos n : Nat) : (fread file pos n).length ≤ n := by
  unfold fread; rw [List.length_take]; omega

theorem fread_length {file : List uchar} {pos n : Nat} (h : pos + n ≤ file.length) :
    (fread file pos n).length = n := by
  unfold fread; rw [List.length_take, List.length_drop]; omega

theorem fieldAt_length {file : List uchar} {pos n v : Nat} (h : fieldAt file pos n v) :
    n = 0 ∨ pos + n ≤ file.length := by
  have h1 : (fread file pos n).length = n := by rw [h.1, le_length]
  unfold fread at h1
  rw [List.length_take, List.length_drop] at h1
  omega

theorem peek_inside {pixels : List uchar} (outside : Int → uchar) {k : Nat}
    (h : k < pixels.length) : some (peek pixels outside (k : Int)) = pixels[k]? := by
  unfold peek
  have h1 : (0 : Int) ≤ (k : Int) ∧ (k : Int) < (pixels.length : Int) := by omega
  rw [if_pos h1, Int.toNat_ofNat, List.getD_eq_getElem _ _ h, List.getElem?_eq_getElem h]

/-- Rows of equal length laid end to end: byte `c` of row `i` is at `i * L + c`. -/
theorem getElem?_flatMap_range {α : Type} (f : Nat → List α) (L : Nat)
    (hL : ∀ i, (f i).length = L) (n : Nat) :
    ((List.range n).flatMap f).length = n * L
    ∧ ∀ i c, i < n → c < L → ((List.range n).flatMap f)[i * L + c]? = (f i)[c]? := by
  induction n with
  | zero => exact ⟨by simp, fun i c hi => absurd hi (Nat.not_lt_zero i)⟩
  | succ n ih =>
    obtain ⟨ihl, ihg⟩ := ih
    have e : (List.range (n + 1)).flatMap f = (List.range n).flatMap f ++ f n := by
      rw [List.range_succ, List.flatMap_append]; simp
    rw [e]
    refine ⟨by rw [List.length_append, ihl, hL]; ring, fun i c hi hc => ?_⟩
    rcases Nat.lt_succ_iff_lt_or_eq.1 hi with hlt | heq
    · have hb : i * L + c < n * L := by
        have : (i + 1) * L ≤ n * L := Nat.mul_le_mul_right L hlt
        rw [Nat.add_mul] at this; omega
      rw [List.getElem?_append_left (by rw [ihl]; exact hb)]
      exact ihg i c hlt hc
    · subst heq
      rw [List.getElem?_append_right (by rw [ihl]; omega), ihl]
      congr 1; omega

theorem writeRow_length (pixels : List uchar) (outside : Int → uchar) (w h bpp i : Nat) :
    (writeRow pixels outside w h bpp i).length = (paddedRowSize w bpp).toNat := by
  unfold writeRow
  rw [List.length_map, List.length_range]

theorem writeImage_length (pixels : List uchar) (outside : Int → uchar) (w h bpp : Nat) :
    (writeImage pixels outside w h bpp).length = 54 + h * (paddedRowSize w bpp).toNat := by
  unfold writeImage
  rw [List.length_append, writeHeader_length,
    (getElem?_flatMap_range _ _ (writeRow_length pixels outside w h bpp) h).1]

/-- Byte `c` of disk row `i` of the file `writeImage` produces. -/
theorem getElem?_writeImage (pixels : List uchar) (outside : Int → uchar) (w h bpp : Nat)
    {i c : Nat} (hi : i < h) (hc : c < (paddedRowSize w bpp).toNat) :
    (writeImage pixels outside w h bpp)[54 + i * (paddedRowSize w bpp).toNat + c]?
      = some (peek pixels outside
          (toInt (umul (usub (usub h 1) i) (ofInt (unpaddedRowSize w bpp))) + (c : Int))) := by
  unfold writeImage
  rw [List.getElem?_append_right (by rw [writeHeader_length]; omega), writeHeader_length]
  have e : 54 + i * (paddedRowSize w bpp).toNat + c - 54
      = i * (paddedRowSize w bpp).toNat + c := by omega
  rw [e, (getElem?_flatMap_range _ _ (writeRow_length pixels outside w h bpp) h).2 i c hi hc]
  unfold writeRow
  rw [List.getElem?_map, List.getElem?_range hc]
  rfl


/-! ## The row loop of `readImage` -/

theorem blit_length (buf : List uchar) (off : Int) (bytes : List uchar) :
    (blit buf off bytes).length = buf.length := by
  unfold blit
  rw [List.length_map, List.length_range]

theorem getElem?_blit_hit {buf : List uchar} {o idx : Nat} {bytes : List uchar}
    (hidx : idx < buf.length) (h1 : o ≤ idx) (h2 : idx < o + bytes.length) :
    (blit buf (o : Int) bytes)[idx]? = bytes[idx - o]? := by
  unfold blit
  rw [List.getElem?_map, List.getElem?_range hidx]
  have hc : ((o : Int) ≤ (idx : Int)) ∧ ((idx : Int) < (o : Int) + (bytes.length : Int)) := by
    omega
  have e : ((idx : Int) - (o : Int)).toNat = idx - o := by omega
  simp only [Option.map_some', hc, and_self, if_true, e]
  rw [List.getD_eq_getElem _ _ (by omega), List.getElem?_eq_getElem (by omega)]

theorem getElem?_blit_miss {buf : List uchar} {o idx : Nat} {bytes : List uchar}
    (h : idx < o ∨ o + bytes.length ≤ idx) :
    (blit buf (o : Int) bytes)[idx]? = buf[idx]? := by
  unfold blit
  by_cases hidx : idx < buf.length
  · rw [List.getElem?_map, List.getElem?_range hidx]
    have hc : ¬ (((o : Int) ≤ (idx : Int)) ∧ ((idx : Int) < (o : Int) + (bytes.length : Int))) := by
      omega
    simp only [Option.map_some', hc, if_false]
    rw [List.getD_eq_getElem _ _ hidx, List.getElem?_eq_getElem hidx]
  · rw [List.getElem?_eq_none (by rw [List.length_map, List.length_range]; omega),
      List.getElem?_eq_none (by omega)]

/-- The row loop iteration without wrap-around: row `i` of the file goes to
row `H - 1 - i` of the buffer. -/
theorem readRow_eq (file : List uchar) {D H P U i : Nat} (buf : List uchar)
    (hi : i < H) (hH : H < 4294967296) (hHU : H * U < 2147483648)
    (hpos : D + i * P < 2147483648) :
    readRow file D H (P : Int) (U : Int) buf i
      = blit buf (((H - 1 - i) * U : Nat) : Int) (fread file (D + i * P) U) := by
  unfold readRow
  have h1 : (H - 1) * U ≤ H * U := Nat.mul_le_mul_right U (by omega)
  have h2 : (H - 1 - i) * U + i * U = (H - 1) * U := by
    rw [← Nat.add_mul]; congr 1; omega
  have h3 : U ≤ H * U := Nat.le_mul_of_pos_left U (by omega)
  rw [usub_eq hH (by omega), ofInt_natCast (by omega), umul_eq (by omega),
    imul_natCast (by omega), ofInt_natCast (by omega), uadd_eq (by omega), Int.toNat_ofNat]
  have e : (((H - 1) * U : Nat) : Int) - (i : Int) * (U : Int)
      = (((H - 1 - i) * U : Nat) : Int) := by
    have := congrArg (fun n : Nat => (n : Int)) h2
    simp only [] at this
    push_cast at this ⊢
    linarith
  rw [e]

theorem foldl_readRow (file : List uchar) {D H P U : Nat} (buf : List uchar)
    (hH : H < 4294967296) (hHU : H * U < 2147483648) (hbuf : buf.length = H * U)
    (hpos : ∀ i, i < H → D + i * P < 2147483648) (n : Nat) (hn : n ≤ H) :
    ((List.range n).foldl (readRow file D H (P : Int) (U : Int)) buf).length = H * U
    ∧ ∀ i c, i < n → c < (fread file (D + i * P) U).length →
        ((List.range n).foldl (readRow file D H (P : Int) (U : Int)) buf)[(H - 1 - i) * U + c]?
          = (fread file (D + i * P) U)[c]? := by
  induction n with
  | zero => exact ⟨hbuf, fun i c hi => absurd hi (Nat.not_lt_zero i)⟩
  | succ n ih =>
    obtain ⟨ihl, ihg⟩ := ih (by omega)
    rw [List.range_succ, List.foldl_append]
    simp only [List.foldl_cons, List.foldl_nil]
    rw [readRow_eq file _ (show n < H by omega) hH hHU (hpos n (by omega))]
    refine ⟨by rw [blit_length, ihl], fun i c hi hc => ?_⟩
    have hcU : c < U := lt_of_lt_of_le hc (fread_length_le _ _ _)
    rcases Nat.lt_succ_iff_lt_or_eq.1 hi with hlt | heq
    · have h1 : (H - 1 - n + 1) * U ≤ (H - 1 - i) * U := Nat.mul_le_mul_right U (by omega)
      rw [Nat.add_mul] at h1
      have h2 := fread_length_le file (D + n * P) U
      rw [getElem?_blit_miss (Or.inr (by omega))]
      exact ihg i c hlt hc
    · subst heq
      have h1 : (H - 1 - i + 1) * U ≤ H * U := Nat.mul_le_mul_right U (by omega)
      rw [Nat.add_mul] at h1
      rw [getElem?_blit_hit (by rw [ihl]; omega) (by omega) (by omega)]
      congr 1; omega

/-- The result of `readImage` when no 32-bit quantity wraps around: the header
values, a buffer of `H * U` bytes, and in it the bytes each `fread` obtained. -/
theorem readImage_core (file : List uchar) (stale : Stale) {D W H bits U P : Nat}
    (hD : freadVar file 10 4 stale.dataOffset = D) (hW : freadVar file 18 4 stale.width = W)
    (hHt : freadVar file 22 4 stale.height = H)
    (hb : freadVar file 28 2 stale.bitsPerPixel = bits)
    (hU : unpaddedRowSize W (int16ToUInt32 bits / 8) = (U : Int))
    (hP : paddedRowSize W (int16ToUInt32 bits / 8) = (P : Int))
    (hH : H < 4294967296) (hHU : H * U < 2147483648)
    (hpos : ∀ i, i < H → D + i * P < 2147483648) :
    ∃ px, readImage (some file) stale = some ⟨W, H, int16ToUInt32 bits / 8, px⟩
      ∧ px.length = H * U
      ∧ ∀ i c, i < H → c < (fread file (D + i * P) U).length →
          px[(H - 1 - i) * U + c]? = (fread file (D + i * P) U)[c]? := by
  have ofInt_toInt_natCast : ofInt (U : Int) = U % 4294967296 := by unfold ofInt; omega
  have e : toInt (umul (ofInt (U : Int)) H) = ((H * U : Nat) : Int) := by
    rw [ofInt_toInt_natCast, Nat.mul_comm H U]
    unfold umul
    rw [Nat.mod_mul_mod, Nat.mul_comm U H, Nat.mod_eq_of_lt (by omega), toInt_eq hHU]
  have hbuf : ((List.range (H * U)).map stale.heap).length = H * U := by
    rw [List.length_map, List.length_range]
  obtain ⟨hl, hg⟩ := foldl_readRow file ((List.range (H * U)).map stale.heap) hH hHU hbuf hpos
    H (Nat.le_refl H)
  refine ⟨_, ?_, hl, hg⟩
  unfold readImage
  simp only [BITMAP_DATA_OFFSET, WIDTH_OFFSET, HEIGHT_OFFSET, BITS_PER_PIXEL_OFFSET, hD, hW,
    hHt, hb, hU, hP, e, Int.toNat_ofNat]


/-! ## Rows of the file against rows of the buffer -/

theorem pixelOffset_eq {h U i : Nat} (hi : i < h) (hh : h < 4294967296)
    (hU : h * U < 2147483648) :
    toInt (umul (usub (usub h 1) i) (ofInt (U : Int))) = (((h - 1 - i) * U : Nat) : Int) := by
  have h1 : (h - 1 - i) * U ≤ h * U := Nat.mul_le_mul_right U (by omega)
  have h2 : U ≤ h * U := Nat.le_mul_of_pos_left U (by omega)
  rw [usub_eq hh (by omega), usub_eq (by omega) (by omega), ofInt_natCast (by omega),
    umul_eq (by omega), toInt_eq (by omega)]

/-- Where the width converts to `float` exactly and no size overflows, the
first `width * bytesPerPixel` bytes of disk row `r` are buffer row `h - 1 - r`. -/
theorem fread_writeImage_row (pixels : List uchar) (outside : Int → uchar)
    {w h bpp : Nat} (hw : w < 16777216) (hpad : 4 * ((w + 3) / 4) * bpp < 2147483648)
    (hsize : w * h * bpp < 2147483648) (hlen : pixels.length = w * h * bpp)
    {r : Nat} (hr : r < h) :
    fread (writeImage pixels outside w h bpp) (54 + r * (4 * ((w + 3) / 4) * bpp)) (w * bpp)
      = memRow pixels (w * bpp) (h - 1 - r) := by
  have hP := paddedRowSize_eq hw hpad
  have hT : (paddedRowSize w bpp).toNat = 4 * ((w + 3) / 4) * bpp := by
    rw [hP, Int.toNat_ofNat]
  have hUP : w * bpp ≤ 4 * ((w + 3) / 4) * bpp := Nat.mul_le_mul_right _ (by omega)
  have hHU : h * (w * bpp) = w * h * bpp := by ring
  apply List.ext_getElem?
  intro c
  rw [getElem?_fread, getElem?_memRow]
  by_cases hc : c < w * bpp
  · rw [if_pos hc, if_pos hc]
    have hU0 : 0 < w * bpp := by omega
    have hh : h ≤ h * (w * bpp) := Nat.le_mul_of_pos_right _ hU0
    have hU : unpaddedRowSize w bpp = ((w * bpp : Nat) : Int) :=
      unpaddedRowSize_eq (by
        have : w * bpp ≤ h * (w * bpp) := Nat.le_mul_of_pos_left _ (by omega)
        omega)
    have key := getElem?_writeImage pixels outside w h bpp hr
      (show c < (paddedRowSize w bpp).toNat by rw [hT]; omega)
    rw [hT, hU, pixelOffset_eq hr (by omega) (by omega)] at key
    rw [key]
    have hk : (h - 1 - r) * (w * bpp) + c < pixels.length := by
      have h3 : (h - 1 - r + 1) * (w * bpp) ≤ h * (w * bpp) :=
        Nat.mul_le_mul_right _ (by omega)
      rw [Nat.add_mul] at h3
      omega
    rw [← peek_inside outside hk]
    push_cast
    rfl
  · rw [if_neg hc, if_neg hc]

/-- Width 16777217, height 2, one byte per pixel: `(float)16777217` is 16777216,
so a disk row has 16777216 bytes, and the byte of the file at offset
`54 + 16777216` is the first byte of disk row 1, the first byte of the buffer. -/
theorem writeImage_wide_byte (pixels : List uchar) (outside : Int → uchar)
    (hlen : pixels.length = 33554434) :
    (writeImage pixels outside 16777217 2 1)[54 + 16777216]? = pixels[0]? := by
  have hP : paddedRowSize 16777217 1 = 16777216 := by decide
  have hT : (paddedRowSize 16777217 1).toNat = 16777216 := by rw [hP]; rfl
  have key := getElem?_writeImage pixels outside 16777217 2 1 (show 1 < 2 by decide)
    (show 0 < (paddedRowSize 16777217 1).toNat by rw [hT]; decide)
  rw [hT] at key
  have hoff : toInt (umul (usub (usub 2 1) 1) (ofInt (unpaddedRowSize 16777217 1)))
      + ((0 : Nat) : Int) = ((0 : Nat) : Int) := by decide
  rw [hoff, peek_inside outside (show 0 < pixels.length by omega)] at key
  exact key

theorem getElem?_wide_pixels_zero :
    (byte 1 :: List.replicate 33554433 (byte 0))[0]? = some (byte 1) :=
  List.getElem?_cons_zero

theorem getElem?_wide_pixels_last :
    (byte 1 :: List.replicate 33554433 (byte 0))[33554432 + 1]? = some (byte 0) := by
  rw [List.getElem?_cons_succ, List.getElem?_replicate, if_pos (by decide)]

theorem wide_pixels_length :
    (byte 1 :: List.replicate 33554433 (byte 0)).length = 33554434 := by
  rw [List.length_cons, List.length_replicate]

theorem freadVar_four {file : List uchar} {pos v : Nat} (prior : Nat)
    (h : fieldAt file pos 4 v) : freadVar file pos 4 prior = v := by
  have hl := fieldAt_length h
  rw [freadVar_full prior (by omega), h.1, ofLE_le_four]
  have := h.2
  omega

theorem freadVar_two {file : List uchar} {pos v : Nat} (prior : Nat)
    (h : fieldAt file pos 2 v) : freadVar file pos 2 prior = v := by
  have hl := fieldAt_length h
  rw [freadVar_full prior (by omega), h.1, ofLE_le_two]
  have := h.2
  omega

/-- The four header fields `readImage` looks at, in a file `writeImage` wrote. -/
theorem writeImage_fields (pixels : List uchar) (outside : Int → uchar) {w h : Nat} (bpp : Nat)
    (hw : w < 4294967296) (hh : h < 4294967296) :
    fieldAt (writeImage pixels outside w h bpp) 10 4 54
    ∧ fieldAt (writeImage pixels outside w h bpp) 18 4 w
    ∧ fieldAt (writeImage pixels outside w h bpp) 22 4 h
    ∧ fieldAt (writeImage pixels outside w h bpp) 28 2 (bpp * 8 % 65536) := by
  obtain ⟨-, -, -, f10, -, f18, f22, -, f28, -⟩ := writeHeader_fields w h bpp
  have hbits : bpp * 8 % 65536 < 65536 := Nat.mod_lt _ (by decide)
  unfold fieldAt
  rw [fread_writeImage_header pixels outside w h bpp (show 10 + 4 ≤ 54 by decide),
    fread_writeImage_header pixels outside w h bpp (show 18 + 4 ≤ 54 by decide),
    fread_writeImage_header pixels outside w h bpp (show 22 + 4 ≤ 54 by decide),
    fread_writeImage_header pixels outside w h bpp (show 28 + 2 ≤ 54 by decide)]
  exact ⟨⟨f10, by omega⟩, ⟨f18, by omega⟩, ⟨f22, by omega⟩,
    ⟨by rw [f28]; exact le_two_umul_eight bpp, by omega⟩⟩

theorem int16ToUInt32_eq {bits : Nat} (h : bits < 32768) : int16ToUInt32 bits = bits := by
  unfold int16ToUInt32; split <;> omega


/-! ## Offsets used by `rotateRight` -/

theorem idx_lt {h U i r : Nat} (hi : i < h) (hr : r < U) : i * U + r < h * U := by
  have h1 : (i + 1) * U ≤ h * U := Nat.mul_le_mul_right U hi
  rw [Nat.add_mul] at h1
  omega

/-- The offsets of passes 1 and 3 without wrap-around: both are byte `k` of a
pixel of row `i`, inside the buffer. -/
theorem mem_mirrorRows {rows : List Nat} {w h bpp : Nat} (hrows : ∀ i, i ∈ rows → i < h)
    (hsize : w * h * bpp < 2147483648) {ab : Int × Int} (hab : ab ∈ mirrorRows rows w bpp) :
    ∃ i j k, i ∈ rows ∧ j < w / 2 ∧ k < bpp
      ∧ ab = (((i * (w * bpp) + j * bpp + k : Nat) : Int),
              ((i * (w * bpp) + (w - 1 - j) * bpp + k : Nat) : Int))
      ∧ i * (w * bpp) + j * bpp + k < w * h * bpp
      ∧ i * (w * bpp) + (w - 1 - j) * bpp + k < w * h * bpp := by
  unfold mirrorRows at hab
  rw [List.mem_flatMap] at hab
  obtain ⟨i, hi, hab⟩ := hab
  rw [List.mem_flatMap] at hab
  obtain ⟨j, hj, hab⟩ := hab
  rw [List.mem_map] at hab
  obtain ⟨k, hk, hab⟩ := hab
  rw [List.mem_range] at hj hk
  have hih := hrows i hi
  have e : w * h * bpp = h * (w * bpp) := by ring
  have hjw : j * bpp + k < w * bpp := idx_lt (show j < w by omega) hk
  have hjw' : (w - 1 - j) * bpp + k < w * bpp := idx_lt (show w - 1 - j < w by omega) hk
  have h1 : i * (w * bpp) + (j * bpp + k) < h * (w * bpp) := idx_lt hih hjw
  have h2 : i * (w * bpp) + ((w - 1 - j) * bpp + k) < h * (w * bpp) := idx_lt hih hjw'
  have hUh : w * bpp ≤ h * (w * bpp) := Nat.le_mul_of_pos_left _ (by omega)
  have hwU : w ≤ w * bpp := Nat.le_mul_of_pos_right _ (by omega)
  have hU : unpaddedRowSize w bpp = ((w * bpp : Nat) : Int) := unpaddedRowSize_eq (by omega)
  refine ⟨i, j, k, hi, hj, hk, ?_, by omega, by omega⟩
  rw [← hab, hU, imul_natCast (by omega), umul_eq (by omega),
    usub_eq (a := w) (b := 1) (by omega) (by omega), usub_eq (by omega) (by omega),
    umul_eq (by omega)]
  push_cast
  rfl

/-- The offsets of pass 2 without wrap-around: byte `j` of rows `i` and
`h - 1 - i`, inside the buffer. -/
theorem mem_pass2 {w h bpp : Nat} (hsize : w * h * bpp < 2147483648) {ab : Int × Int}
    (hab : ab ∈ pass2 w h bpp) :
    ∃ i j, i < h / 2 ∧ j < w * bpp / 2
      ∧ ab = (((i * (w * bpp) + j : Nat) : Int), (((h - 1 - i) * (w * bpp) + j : Nat) : Int))
      ∧ i * (w * bpp) + j < w * h * bpp ∧ (h - 1 - i) * (w * bpp) + j < w * h * bpp := by
  unfold pass2 at hab
  rw [List.mem_flatMap] at hab
  obtain ⟨i, hi, hab⟩ := hab
  rw [List.mem_map] at hab
  obtain ⟨j, hj, hab⟩ := hab
  rw [List.mem_range] at hi hj
  have e : w * h * bpp = h * (w * bpp) := by ring
  have hUh : w * bpp ≤ h * (w * bpp) := Nat.le_mul_of_pos_left _ (by omega)
  have hU : unpaddedRowSize w bpp = ((w * bpp : Nat) : Int) := unpaddedRowSize_eq (by omega)
  rw [hU] at hj hab
  have hd : Int.tdiv ((w * bpp : Nat) : Int) 2 = ((w * bpp / 2 : Nat) : Int) := by
    rw [Int.tdiv_eq_ediv (by omega) (by omega)]; omega
  rw [hd, Int.toNat_ofNat] at hj
  have hjU : j < w * bpp := by omega
  have hhU : h ≤ h * (w * bpp) := Nat.le_mul_of_pos_right _ (by omega)
  have hh32 : h < 4294967296 := by omega
  have h1 : i * (w * bpp) + j < h * (w * bpp) := idx_lt (show i < h by omega) hjU
  have h2 : (h - 1 - i) * (w * bpp) + j < h * (w * bpp) :=
    idx_lt (show h - 1 - i < h by omega) hjU
  refine ⟨i, j, hi, hj, ?_, by omega, by omega⟩
  rw [← hab, imul_natCast (by omega), usub_eq (a := h) (b := 1) (by omega) (by omega),
    usub_eq (by omega) (by omega), ofInt_natCast (by omega), umul_eq (by omega)]
  push_cast
  rfl


/-! ## Fields of the written header -/

theorem fieldAt_imageSize (pixels : List uchar) (outside : Int → uchar) (w h bpp : Nat) :
    fieldAt (writeImage pixels outside w h bpp) 34 4 (imageSize w h bpp) := by
  refine ⟨?_, by have := imageSize_lt w h bpp; omega⟩
  rw [fread_writeImage_header pixels outside w h bpp (show 34 + 4 ≤ 54 by decide)]
  exact (writeHeader_fields w h bpp).2.2.2.2.2.2.2.2.2.2.1

theorem fieldAt_fileSize (pixels : List uchar) (outside : Int → uchar) (w h bpp : Nat) :
    fieldAt (writeImage pixels outside w h bpp) 2 4 (fileSize w h bpp) := by
  refine ⟨?_, by have := fileSize_lt w h bpp; omega⟩
  rw [fread_writeImage_header pixels outside w h bpp (show 2 + 4 ≤ 54 by decide)]
  exact (writeHeader_fields w h bpp).2.1

/-- A four-byte field holds one value only. -/
theorem fieldAt_four_unique {file : List uchar} {pos a b : Nat}
    (ha : fieldAt file pos 4 a) (hb : fieldAt file pos 4 b) : a = b := by
  have h1 := ofLE_le_four a
  have h2 := ofLE_le_four b
  rw [← ha.1, hb.1] at h1
  have := ha.2
  have := hb.2
  omega


/-! ## Swaps -/

theorem cons_set_perm (x : uchar) :
    ∀ (t : List uchar) (b : Nat), b < t.length → (t.getD b 0 :: t.set b x).Perm (x :: t) := by
  intro t
  induction t with
  | nil => intro b hb; exact absurd hb (Nat.not_lt_zero b)
  | cons y s ih =>
    intro b hb
    cases b with
    | zero => exact List.Perm.swap x y s
    | succ b =>
      have hb' : b < s.length := Nat.lt_of_succ_lt_succ hb
      rw [List.getD_cons_succ, List.set_cons_succ]
      exact (List.Perm.swap y (s.getD b 0) (s.set b x)).trans
        (((ih b hb').cons y).trans (List.Perm.swap x y s))

/-- Exchanging two bytes of a buffer permutes it. -/
theorem set_set_perm :
    ∀ (l : List uchar) (a b : Nat), a < l.length → b < l.length →
      ((l.set a (l.getD b 0)).set b (l.getD a 0)).Perm l := by
  intro l
  induction l with
  | nil => intro a b ha; exact absurd ha (Nat.not_lt_zero a)
  | cons x t ih =>
    intro a b ha hb
    cases a with
    | zero =>
      cases b with
      | zero => exact List.Perm.refl _
      | succ b =>
        rw [List.getD_cons_succ, List.set_cons_zero, List.set_cons_succ, List.getD_cons_zero]
        exact cons_set_perm x t b (Nat.lt_of_succ_lt_succ hb)
    | succ a =>
      cases b with
      | zero =>
        rw [List.getD_cons_zero, List.set_cons_succ, List.set_cons_zero, List.getD_cons_succ]
        exact cons_set_perm x t a (Nat.lt_of_succ_lt_succ ha)
      | succ b =>
        rw [List.getD_cons_succ, List.set_cons_succ, List.set_cons_succ, List.getD_cons_succ]
        exact (ih a b (Nat.lt_of_succ_lt_succ ha) (Nat.lt_of_succ_lt_succ hb)).cons x

theorem swapBytes_perm (pixels : List uchar) (ab : Int × Int) :
    (swapBytes pixels ab).Perm pixels := by
  unfold swapBytes
  split
  · rename_i h
    exact set_set_perm pixels ab.1.toNat ab.2.toNat (by omega) (by omega)
  · exact List.Perm.refl _

theorem foldl_swapBytes_perm (swaps : List (Int × Int)) :
    ∀ pixels : List uchar, (swaps.foldl swapBytes pixels).Perm pixels := by
  induction swaps with
  | nil => intro pixels; exact List.Perm.refl _
  | cons ab rest ih =>
    intro pixels
    rw [List.foldl_cons]
    exact (ih _).trans (swapBytes_perm pixels ab)

theorem foldl_swapBytes_length (swaps : List (Int × Int)) (pixels : List uchar) :
    (swaps.foldl swapBytes pixels).length = pixels.length :=
  (foldl_swapBytes_perm swaps pixels).length_eq

/-- The three passes of `rotateRight`, one after the other. -/
theorem rotateRight_passes (pixels : List uchar) (w h bpp : Nat) :
    rotateRight pixels w h bpp
      = (pass3 w h bpp).foldl swapBytes
          ((pass2 w h bpp).foldl swapBytes ((pass1 w h bpp).foldl swapBytes pixels)) := by
  unfold rotateRight rotateRightSwaps
  rw [List.foldl_append, List.foldl_append]

theorem pass3_eq_nil {h : Nat} (w bpp : Nat) (hh : h ≤ 50) : pass3 w h bpp = [] := by
  unfold pass3 mirrorRows
  have e : h - 50 = 0 := by omega
  rw [e]
  rfl

theorem foldl_readRow_length (file : List uchar) (D H : Nat) (P U : Int) (rows : List Nat) :
    ∀ buf : List uchar, (rows.foldl (readRow file D H P U) buf).length = buf.length := by
  induction rows with
  | nil => intro buf; rfl
  | cons i rest ih =>
    intro buf
    rw [List.foldl_cons, ih]
    unfold readRow
    rw [blit_length]


/-! ## Further facts on the three functions -/

theorem toInt_lt (n : Nat) : toInt n < 2147483648 := by
  unfold toInt; split <;> omega

theorem ofInt_of_nonneg {x : Int} (h0 : 0 ≤ x) (h1 : x < 4294967296) : ofInt x = x.toNat := by
  unfold ofInt; omega

/-- What `readImage` returns for a file that could be opened, spelled out. -/
theorem readImage_some (file : List uchar) (stale : Stale) :
    readImage (some file) stale = some
      { width := freadVar file 18 4 stale.width
        height := freadVar file 22 4 stale.height
        bytesPerPixel := int16ToUInt32 (freadVar file 28 2 stale.bitsPerPixel) / 8
        pixels := (List.range (freadVar file 22 4 stale.height)).foldl
          (readRow file (freadVar file 10 4 stale.dataOffset) (freadVar file 22 4 stale.height)
            (paddedRowSize (freadVar file 18 4 stale.width)
              (int16ToUInt32 (freadVar file 28 2 stale.bitsPerPixel) / 8))
            (unpaddedRowSize (freadVar file 18 4 stale.width)
              (int16ToUInt32 (freadVar file 28 2 stale.bitsPerPixel) / 8)))
          ((List.range (toInt (umul (ofInt (unpaddedRowSize (freadVar file 18 4 stale.width)
              (int16ToUInt32 (freadVar file 28 2 stale.bitsPerPixel) / 8)))
            (freadVar file 22 4 stale.height))).toNat).map stale.heap) } :=
  rfl

/-- The size of the block `readImage` allocates, without wrap-around. -/
theorem totalSize_eq {W H B : Nat} (hsize : W * H * B < 2147483648) :
    (toInt (umul (ofInt (unpaddedRowSize W B)) H)).toNat = W * H * B := by
  unfold unpaddedRowSize
  rw [ofInt_toInt]
  unfold umul
  rw [Nat.mod_mod, Nat.mod_mul_mod]
  have e : W * B * H = W * H * B := by ring
  rw [e, Nat.mod_eq_of_lt (by omega), toInt_eq hsize, Int.toNat_ofNat]

/-- Every swap of `rotateRight` is inside a buffer whose size fits an `int`. -/
theorem rotateRightSwaps_bounds {w h bpp : Nat} (hsize : w * h * bpp < 2147483648)
    {ab : Int × Int} (hab : ab ∈ rotateRightSwaps w h bpp) :
    ∃ a b : Nat, ab = ((a : Int), (b : Int)) ∧ a < w * h * bpp ∧ b < w * h * bpp := by
  unfold rotateRightSwaps at hab
  rw [List.mem_append, List.mem_append] at hab
  rcases hab with (h1 | h2) | h3
  · obtain ⟨i, j, k, -, -, -, e, b1, b2⟩ :=
      mem_mirrorRows (h := h) (fun i hi => by rw [List.mem_range] at hi; omega) hsize h1
    exact ⟨_, _, e, b1, b2⟩
  · obtain ⟨i, j, -, -, e, b1, b2⟩ := mem_pass2 hsize h2
    exact ⟨_, _, e, b1, b2⟩
  · obtain ⟨i, j, k, -, -, -, e, b1, b2⟩ :=
      mem_mirrorRows (h := h) (fun i hi => by
        rw [List.mem_range'] at hi
        obtain ⟨t, ht, rfl⟩ := hi
        omega) hsize h3
    exact ⟨_, _, e, b1, b2⟩

theorem rotateRightSwaps_height_one (w bpp : Nat) : rotateRightSwaps w 1 bpp = [] := by
  unfold rotateRightSwaps pass1 pass2 pass3 mirrorRows
  rfl

theorem mirrorRows_width_one (rows : List Nat) (bpp : Nat) : mirrorRows rows 1 bpp = [] := by
  unfold mirrorRows
  induction rows with
  | nil => rfl
  | cons i rest ih =>
    rw [List.flatMap_cons, ih]
    rfl


/-! ## What `writeImage` reads -/

theorem writeRow_eq_map_peek (pixels : List uchar) (outside : Int → uchar) (w h bpp i : Nat) :
    writeRow pixels outside w h bpp i = (writeRowReads w h bpp i).map (peek pixels outside) := by
  unfold writeRow writeRowReads
  rw [List.map_map]
  rfl

theorem writeImage_eq_map_peek (pixels : List uchar) (outside : Int → uchar) (w h bpp : Nat) :
    writeImage pixels outside w h bpp
      = writeHeader w h bpp ++ (writeImageReads w h bpp).map (peek pixels outside) := by
  unfold writeImage writeImageReads
  rw [List.map_flatMap]
  congr 1
  apply List.flatMap_congr
  intro i _
  exact writeRow_eq_map_peek pixels outside w h bpp i

/-- Without wrap-around, disk row `i` is read from offset `(h - 1 - i) * U`
on, `P` bytes of it. -/
theorem writeRowReads_eq {w h bpp i : Nat} (hw : w < 16777216)
    (hpad : 4 * ((w + 3) / 4) * bpp < 2147483648) (hsize : w * h * bpp < 2147483648)
    (hh32 : h < 4294967296) (hi : i < h) :
    writeRowReads w h bpp i
      = (List.range (4 * ((w + 3) / 4) * bpp)).map fun (c : Nat) =>
          (((h - 1 - i) * (w * bpp) + c : Nat) : Int) := by
  have e : w * h * bpp = h * (w * bpp) := by ring
  have hUh : w * bpp ≤ h * (w * bpp) := Nat.le_mul_of_pos_left _ (by omega)
  unfold writeRowReads
  rw [paddedRowSize_eq hw hpad, unpaddedRowSize_eq (by omega), Int.toNat_ofNat,
    pixelOffset_eq hi hh32 (by omega)]
  apply List.map_congr_left
  intro c _
  push_cast
  rfl


/-! ## A run of swaps that touch different bytes -/

theorem getElem?_swapBytes {q : List uchar} {p : Int × Int}
    (hp : 0 ≤ p.1 ∧ p.1 < q.length ∧ 0 ≤ p.2 ∧ p.2 < q.length) (x : Nat) :
    (swapBytes q p)[x]?
      = if (x : Int) = p.2 then q[p.1.toNat]?
        else if (x : Int) = p.1 then q[p.2.toNat]? else q[x]? := by
  unfold swapBytes
  rw [if_pos hp]
  have ha : p.1.toNat < q.length := by omega
  have hb : p.2.toNat < q.length := by omega
  simp only [List.getElem?_set, List.length_set]
  rw [List.getD_eq_getElem _ _ ha, List.getD_eq_getElem _ _ hb, List.getElem?_eq_getElem ha,
    List.getElem?_eq_getElem hb]
  by_cases h2 : (x : Int) = p.2
  · have : p.2.toNat = x := by omega
    rw [if_pos h2, if_pos this, if_pos hb]
  · have : ¬ p.2.toNat = x := by omega
    rw [if_neg h2, if_neg this]
    by_cases h1 : (x : Int) = p.1
    · have : p.1.toNat = x := by omega
      rw [if_pos h1, if_pos this, if_pos ha]
    · have : ¬ p.1.toNat = x := by omega
      rw [if_neg h1, if_neg this]

theorem swapBytes_length (q : List uchar) (p : Int × Int) :
    (swapBytes q p).length = q.length :=
  (swapBytes_perm q p).length_eq

/-- After a run of swaps that touch pairwise different bytes of the buffer,
the two bytes of each swap are exchanged and every other byte is where it was. -/
theorem foldl_swapBytes_spec :
    ∀ (L : List (Int × Int)) (q : List uchar),
      (∀ p, p ∈ L → 0 ≤ p.1 ∧ p.1 < q.length ∧ 0 ≤ p.2 ∧ p.2 < q.length) →
      L.Pairwise disjointSwaps →
      (∀ p, p ∈ L → (L.foldl swapBytes q)[p.1.toNat]? = q[p.2.toNat]?
          ∧ (L.foldl swapBytes q)[p.2.toNat]? = q[p.1.toNat]?)
      ∧ (∀ x : Nat, (∀ p, p ∈ L → (x : Int) ≠ p.1 ∧ (x : Int) ≠ p.2) →
          (L.foldl swapBytes q)[x]? = q[x]?) := by
  intro L
  induction L with
  | nil =>
    intro q _ _
    exact ⟨fun p hp => absurd hp (List.not_mem_nil p), fun x _ => rfl⟩
  | cons s rest ih =>
    intro q hb hpw
    rw [List.pairwise_cons] at hpw
    obtain ⟨hs, hrest⟩ := hpw
    have hsb := hb s (List.mem_cons_self s rest)
    have hb' : ∀ p, p ∈ rest →
        0 ≤ p.1 ∧ p.1 < (swapBytes q s).length ∧ 0 ≤ p.2 ∧ p.2 < (swapBytes q s).length := by
      intro p hp
      rw [swapBytes_length]
      exact hb p (List.mem_cons_of_mem s hp)
    obtain ⟨ih1, ih2⟩ := ih (swapBytes q s) hb' hrest
    rw [List.foldl_cons]
    constructor
    · intro p hp
      rcases List.mem_cons.1 hp with rfl | hp
      · have h1 : ∀ t, t ∈ rest → ((p.1.toNat : Nat) : Int) ≠ t.1
            ∧ ((p.1.toNat : Nat) : Int) ≠ t.2 := by
          intro t ht
          have := hs t ht
          unfold disjointSwaps at this
          constructor <;> omega
        have h2 : ∀ t, t ∈ rest → ((p.2.toNat : Nat) : Int) ≠ t.1
            ∧ ((p.2.toNat : Nat) : Int) ≠ t.2 := by
          intro t ht
          have := hs t ht
          unfold disjointSwaps at this
          constructor <;> omega
        rw [ih2 _ h1, ih2 _ h2, getElem?_swapBytes hsb, getElem?_swapBytes hsb]
        constructor
        · by_cases e : ((p.1.toNat : Nat) : Int) = p.2
          · rw [if_pos e]
            have : p.1.toNat = p.2.toNat := by omega
            rw [this]
          · rw [if_neg e, if_pos (by omega)]
        · rw [if_pos (by omega)]
      · have hd := hs p hp
        unfold disjointSwaps at hd
        have hpb := hb p (List.mem_cons_of_mem s hp)
        obtain ⟨e1, e2⟩ := ih1 p hp
        rw [e1, e2, getElem?_swapBytes hsb, getElem?_swapBytes hsb]
        constructor
        · rw [if_neg (by omega), if_neg (by omega)]
        · rw [if_neg (by omega), if_neg (by omega)]
    · intro x hx
      have hxs := hx s (List.mem_cons_self s rest)
      rw [ih2 x (fun p hp => hx p (List.mem_cons_of_mem s hp)), getElem?_swapBytes hsb,
        if_neg hxs.2, if_neg hxs.1]

/-- Quotient and remainder determine a number. -/
theorem mul_add_inj {n a b r s : Nat} (hr : r < n) (hs : s < n) (h : a * n + r = b * n + s) :
    a = b ∧ r = s := by
  rcases Nat.lt_trichotomy a b with hlt | heq | hgt
  · have := idx_lt hlt hr
    have : b * n ≤ b * n + s := Nat.le_add_right _ _
    omega
  · subst heq
    exact ⟨rfl, by omega⟩
  · have := idx_lt hgt hs
    have : a * n ≤ a * n + r := Nat.le_add_right _ _
    omega

/-- Row, column and byte determine the offset of a byte, and conversely. -/
theorem enc_inj {w bpp i j k a b c : Nat} (hj : j < w) (hk : k < bpp) (hb : b < w)
    (hc : c < bpp) (h : i * (w * bpp) + j * bpp + k = a * (w * bpp) + b * bpp + c) :
    i = a ∧ j = b ∧ k = c := by
  rw [Nat.add_assoc, Nat.add_assoc] at h
  obtain ⟨h1, h2⟩ := mul_add_inj (idx_lt hj hk) (idx_lt hb hc) h
  obtain ⟨h3, h4⟩ := mul_add_inj hk hc h2
  exact ⟨h1, h3, h4⟩


/-! ## The swaps of passes 1 and 3 -/

theorem mirrorRows_eq (rows : List Nat) (w bpp : Nat) :
    mirrorRows rows w bpp
      = rows.flatMap fun (i : Nat) =>
          (List.range (w / 2)).flatMap fun (j : Nat) =>
            (List.range bpp).map (mirrorSwap w bpp i j) :=
  rfl

/-- A swap of passes 1 and 3 without wrap-around. -/
theorem mirrorSwap_eq {w h bpp i j k : Nat} (hsize : w * h * bpp < 2147483648)
    (hi : i < h) (hj : j < w / 2) (hk : k < bpp) :
    mirrorSwap w bpp i j k
      = (((i * (w * bpp) + j * bpp + k : Nat) : Int),
         ((i * (w * bpp) + (w - 1 - j) * bpp + k : Nat) : Int)) := by
  have e : w * h * bpp = h * (w * bpp) := by ring
  have hjw : j * bpp + k < w * bpp := idx_lt (show j < w by omega) hk
  have hjw' : (w - 1 - j) * bpp + k < w * bpp := idx_lt (show w - 1 - j < w by omega) hk
  have h1 : i * (w * bpp) + (j * bpp + k) < h * (w * bpp) := idx_lt hi hjw
  have hUh : w * bpp ≤ h * (w * bpp) := Nat.le_mul_of_pos_left _ (by omega)
  have hwU : w ≤ w * bpp := Nat.le_mul_of_pos_right _ (by omega)
  have hU : unpaddedRowSize w bpp = ((w * bpp : Nat) : Int) := unpaddedRowSize_eq (by omega)
  unfold mirrorSwap
  rw [hU, imul_natCast (by omega), umul_eq (by omega),
    usub_eq (a := w) (b := 1) (by omega) (by omega), usub_eq (by omega) (by omega),
    umul_eq (by omega)]
  push_cast
  rfl

theorem mem_mirrorRows_iff {rows : List Nat} {w bpp : Nat} {p : Int × Int} :
    p ∈ mirrorRows rows w bpp
      ↔ ∃ i j k, i ∈ rows ∧ j < w / 2 ∧ k < bpp ∧ p = mirrorSwap w bpp i j k := by
  rw [mirrorRows_eq]
  simp only [List.mem_flatMap, List.mem_map, List.mem_range]
  constructor
  · rintro ⟨i, hi, j, hj, k, hk, rfl⟩
    exact ⟨i, j, k, hi, hj, hk, rfl⟩
  · rintro ⟨i, j, k, hi, hj, hk, rfl⟩
    exact ⟨i, hi, j, hj, k, hk, rfl⟩

/-- Two different swaps of passes 1 and 3 touch four different bytes. -/
theorem mirrorSwap_disjoint {w h bpp i j k a b c : Nat} (hsize : w * h * bpp < 2147483648)
    (hi : i < h) (hj : j < w / 2) (hk : k < bpp) (ha : a < h) (hb : b < w / 2) (hc : c < bpp)
    (hne : i ≠ a ∨ j ≠ b ∨ k ≠ c) :
    disjointSwaps (mirrorSwap w bpp i j k) (mirrorSwap w bpp a b c) := by
  rw [mirrorSwap_eq hsize hi hj hk, mirrorSwap_eq hsize ha hb hc]
  unfold disjointSwaps
  refine ⟨?_, ?_, ?_, ?_⟩
  · intro h
    dsimp only at h
    have h' : i * (w * bpp) + j * bpp + k = a * (w * bpp) + b * bpp + c := by exact_mod_cast h
    obtain ⟨e1, e2, e3⟩ := enc_inj (show j < w by omega) hk (show b < w by omega) hc h'
    omega
  · intro h
    dsimp only at h
    have h' : i * (w * bpp) + j * bpp + k = a * (w * bpp) + (w - 1 - b) * bpp + c := by
      exact_mod_cast h
    obtain ⟨e1, e2, e3⟩ := enc_inj (show j < w by omega) hk (show w - 1 - b < w by omega) hc h'
    omega
  · intro h
    dsimp only at h
    have h' : i * (w * bpp) + (w - 1 - j) * bpp + k = a * (w * bpp) + b * bpp + c := by
      exact_mod_cast h
    obtain ⟨e1, e2, e3⟩ := enc_inj (show w - 1 - j < w by omega) hk (show b < w by omega) hc h'
    omega
  · intro h
    dsimp only at h
    have h' : i * (w * bpp) + (w - 1 - j) * bpp + k
        = a * (w * bpp) + (w - 1 - b) * bpp + c := by exact_mod_cast h
    obtain ⟨e1, e2, e3⟩ :=
      enc_inj (show w - 1 - j < w by omega) hk (show w - 1 - b < w by omega) hc h'
    omega

theorem pairwise_mirrorRows {rows : List Nat} {w h bpp : Nat}
    (hrows : ∀ i, i ∈ rows → i < h) (hpw : rows.Pairwise (fun a b => a < b))
    (hsize : w * h * bpp < 2147483648) :
    (mirrorRows rows w bpp).Pairwise disjointSwaps := by
  rw [mirrorRows_eq, List.pairwise_flatMap]
  constructor
  · intro i hi
    rw [List.pairwise_flatMap]
    constructor
    · intro j hj
      rw [List.pairwise_map]
      refine List.Pairwise.imp_of_mem ?_ (List.pairwise_lt_range bpp)
      intro k c hk hc hlt
      rw [List.mem_range] at hj hk hc
      exact mirrorSwap_disjoint hsize (hrows i hi) hj hk (hrows i hi) hj hc
        (Or.inr (Or.inr (by omega)))
    · refine List.Pairwise.imp_of_mem ?_ (List.pairwise_lt_range (w / 2))
      intro j b hj hb hlt x hx y hy
      rw [List.mem_range] at hj hb
      rw [List.mem_map] at hx hy
      obtain ⟨k, hk, rfl⟩ := hx
      obtain ⟨c, hc, rfl⟩ := hy
      rw [List.mem_range] at hk hc
      exact mirrorSwap_disjoint hsize (hrows i hi) hj hk (hrows i hi) hb hc
        (Or.inr (Or.inl (by omega)))
  · refine List.Pairwise.imp_of_mem ?_ hpw
    intro i a hi ha hlt x hx y hy
    simp only [List.mem_flatMap, List.mem_map, List.mem_range] at hx hy
    obtain ⟨j, hj, k, hk, rfl⟩ := hx
    obtain ⟨b, hb, c, hc, rfl⟩ := hy
    exact mirrorSwap_disjoint hsize (hrows i hi) hj hk (hrows a ha) hb hc (Or.inl (by omega))

/-- Passes 1 and 3 on the rows `rows`: in each of these rows the pixels end up
in reverse order, byte by byte, and the other rows are not touched. -/
theorem mirrorRows_spec {rows : List Nat} {w h bpp : Nat} (q : List uchar)
    (hrows : ∀ i, i ∈ rows → i < h) (hpw : rows.Pairwise (fun a b => a < b))
    (hsize : w * h * bpp < 2147483648) (hlen : q.length = w * h * bpp) :
    (∀ i j k, i ∈ rows → j < w → k < bpp →
        ((mirrorRows rows w bpp).foldl swapBytes q)[i * (w * bpp) + j * bpp + k]?
          = q[i * (w * bpp) + (w - 1 - j) * bpp + k]?)
    ∧ (∀ i j k, i ∉ rows → j < w → k < bpp →
        ((mirrorRows rows w bpp).foldl swapBytes q)[i * (w * bpp) + j * bpp + k]?
          = q[i * (w * bpp) + j * bpp + k]?) := by
  have e : w * h * bpp = h * (w * bpp) := by ring
  have hbnd : ∀ p, p ∈ mirrorRows rows w bpp →
      0 ≤ p.1 ∧ p.1 < q.length ∧ 0 ≤ p.2 ∧ p.2 < q.length := by
    intro p hp
    obtain ⟨i, j, k, -, -, -, rfl, b1, b2⟩ := mem_mirrorRows hrows hsize hp
    rw [hlen]
    exact ⟨by omega, by omega, by omega, by omega⟩
  obtain ⟨s1, s2⟩ := foldl_swapBytes_spec _ q hbnd (pairwise_mirrorRows hrows hpw hsize)
  constructor
  · intro i j k hi hj hk
    by_cases hl : j < w / 2
    · have hm : mirrorSwap w bpp i j k ∈ mirrorRows rows w bpp :=
        mem_mirrorRows_iff.2 ⟨i, j, k, hi, hl, hk, rfl⟩
      have := (s1 _ hm).1
      rw [mirrorSwap_eq hsize (hrows i hi) hl hk] at this
      simpa using this
    · by_cases hr : w - 1 - j < w / 2
      · have hm : mirrorSwap w bpp i (w - 1 - j) k ∈ mirrorRows rows w bpp :=
          mem_mirrorRows_iff.2 ⟨i, w - 1 - j, k, hi, hr, hk, rfl⟩
        have := (s1 _ hm).2
        rw [mirrorSwap_eq hsize (hrows i hi) hr hk] at this
        have e2 : w - 1 - (w - 1 - j) = j := by omega
        rw [e2] at this
        simpa using this
      · have e2 : w - 1 - j = j := by omega
        rw [e2]
        apply s2
        intro p hp
        obtain ⟨a, b, c, ha, hb, hc, rfl⟩ := mem_mirrorRows_iff.1 hp
        rw [mirrorSwap_eq hsize (hrows a ha) hb hc]
        constructor
        · intro h
          dsimp only at h
          have h' : i * (w * bpp) + j * bpp + k = a * (w * bpp) + b * bpp + c := by
            exact_mod_cast h
          obtain ⟨-, e3, -⟩ := enc_inj hj hk (show b < w by omega) hc h'
          omega
        · intro h
          dsimp only at h
          have h' : i * (w * bpp) + j * bpp + k = a * (w * bpp) + (w - 1 - b) * bpp + c := by
            exact_mod_cast h
          obtain ⟨-, e3, -⟩ := enc_inj hj hk (show w - 1 - b < w by omega) hc h'
          omega
  · intro i j k hi hj hk
    apply s2
    intro p hp
    obtain ⟨a, b, c, ha, hb, hc, rfl⟩ := mem_mirrorRows_iff.1 hp
    rw [mirrorSwap_eq hsize (hrows a ha) hb hc]
    constructor
    · intro h
      dsimp only at h
      have h' : i * (w * bpp) + j * bpp + k = a * (w * bpp) + b * bpp + c := by
        exact_mod_cast h
      obtain ⟨e3, -, -⟩ := enc_inj hj hk (show b < w by omega) hc h'
      exact hi (e3 ▸ ha)
    · intro h
      dsimp only at h
      have h' : i * (w * bpp) + j * bpp + k = a * (w * bpp) + (w - 1 - b) * bpp + c := by
        exact_mod_cast h
      obtain ⟨e3, -, -⟩ := enc_inj hj hk (show w - 1 - b < w by omega) hc h'
      exact hi (e3 ▸ ha)


theorem getElem?_pixelAt (l : List uchar) (w bpp i j k : Nat) :
    (pixelAt l w bpp i j)[k]? = if k < bpp then l[(i * w + j) * bpp + k]? else none := by
  unfold pixelAt
  rw [List.getElem?_take, List.getElem?_drop]

theorem pixelAt_ext {r q : List uchar} {w bpp i j a b : Nat}
    (h : ∀ k, k < bpp → r[(i * w + j) * bpp + k]? = q[(a * w + b) * bpp + k]?) :
    pixelAt r w bpp i j = pixelAt q w bpp a b := by
  apply List.ext_getElem?
  intro k
  rw [getElem?_pixelAt, getElem?_pixelAt]
  by_cases hk : k < bpp
  · rw [if_pos hk, if_pos hk]; exact h k hk
  · rw [if_neg hk, if_neg hk]

theorem memRow_ext {r q : List uchar} {U i : Nat}
    (h : ∀ c, c < U → r[i * U + c]? = q[i * U + c]?) : memRow r U i = memRow q U i := by
  apply List.ext_getElem?
  intro c
  rw [getElem?_memRow, getElem?_memRow]
  by_cases hc : c < U
  · rw [if_pos hc, if_pos hc]; exact h c hc
  · rw [if_neg hc, if_neg hc]

theorem pixel_index (w bpp i j k : Nat) :
    (i * w + j) * bpp + k = i * (w * bpp) + j * bpp + k := by ring

/-- The effect of passes 1 and 3 in terms of pixels and rows. -/
theorem mirrorRows_image {rows : List Nat} {w h bpp : Nat} (q : List uchar)
    (hrows : ∀ i, i ∈ rows → i < h) (hpw : rows.Pairwise (fun a b => a < b))
    (hsize : w * h * bpp < 2147483648) (hlen : q.length = w * h * bpp) :
    (∀ i j k, i ∈ rows → j < w → k < bpp →
        ((mirrorRows rows w bpp).foldl swapBytes q)[(i * w + j) * bpp + k]?
          = q[(i * w + (w - 1 - j)) * bpp + k]?)
    ∧ (∀ i j, i ∈ rows → j < w →
        pixelAt ((mirrorRows rows w bpp).foldl swapBytes q) w bpp i j
          = pixelAt q w bpp i (w - 1 - j))
    ∧ (∀ i, i ∉ rows →
        memRow ((mirrorRows rows w bpp).foldl swapBytes q) (w * bpp) i
          = memRow q (w * bpp) i) := by
  obtain ⟨s1, s2⟩ := mirrorRows_spec q hrows hpw hsize hlen
  have b1 : ∀ i j k, i ∈ rows → j < w → k < bpp →
      ((mirrorRows rows w bpp).foldl swapBytes q)[(i * w + j) * bpp + k]?
        = q[(i * w + (w - 1 - j)) * bpp + k]? := by
    intro i j k hi hj hk
    rw [pixel_index, pixel_index]
    exact s1 i j k hi hj hk
  refine ⟨b1, fun i j hi hj => pixelAt_ext (fun k hk => b1 i j k hi hj hk), fun i hi => ?_⟩
  apply memRow_ext
  intro c hc
  have hb0 : 0 < bpp := by
    rcases Nat.eq_zero_or_pos bpp with h0 | hp
    · subst h0; rw [Nat.mul_zero] at hc; exact absurd hc (Nat.not_lt_zero c)
    · exact hp
  obtain ⟨j, k, hj, hk, rfl⟩ : ∃ j k, j < w ∧ k < bpp ∧ j * bpp + k = c :=
    ⟨c / bpp, c % bpp, by rw [Nat.div_lt_iff_lt_mul hb0]; exact hc, Nat.mod_lt _ hb0,
      by rw [Nat.mul_comm]; exact Nat.div_add_mod c bpp⟩
  rw [← Nat.add_assoc]
  exact s2 i j k hi hj hk

/-! ## The swaps of pass 2 -/

theorem pass2_eq (w h bpp : Nat) :
    pass2 w h bpp
      = (List.range (h / 2)).flatMap fun (i : Nat) =>
          (List.range (Int.tdiv (unpaddedRowSize w bpp) 2).toNat).map
            (columnSwap w h bpp i) :=
  rfl

theorem halfRow_eq {w h bpp : Nat} (hsize : w * h * bpp < 2147483648) (hh : 1 ≤ h) :
    (Int.tdiv (unpaddedRowSize w bpp) 2).toNat = w * bpp / 2 := by
  have e : w * h * bpp = h * (w * bpp) := by ring
  have hUh : w * bpp ≤ h * (w * bpp) := Nat.le_mul_of_pos_left _ (by omega)
  rw [unpaddedRowSize_eq (by omega), Int.tdiv_eq_ediv (by omega) (by omega)]
  omega

/-- A swap of pass 2 without wrap-around. -/
theorem columnSwap_eq {w h bpp i j : Nat} (hsize : w * h * bpp < 2147483648)
    (hi : i < h / 2) (hj : j < w * bpp / 2) :
    columnSwap w h bpp i j
      = (((i * (w * bpp) + j : Nat) : Int), (((h - 1 - i) * (w * bpp) + j : Nat) : Int)) := by
  have e : w * h * bpp = h * (w * bpp) := by ring
  have hUh : w * bpp ≤ h * (w * bpp) := Nat.le_mul_of_pos_left _ (by omega)
  have hU : unpaddedRowSize w bpp = ((w * bpp : Nat) : Int) := unpaddedRowSize_eq (by omega)
  have hjU : j < w * bpp := by omega
  have hhU : h ≤ h * (w * bpp) := Nat.le_mul_of_pos_right _ (by omega)
  have h1 : i * (w * bpp) + j < h * (w * bpp) := idx_lt (show i < h by omega) hjU
  have h2 : (h - 1 - i) * (w * bpp) + j < h * (w * bpp) :=
    idx_lt (show h - 1 - i < h by omega) hjU
  unfold columnSwap
  rw [hU, imul_natCast (by omega), usub_eq (a := h) (b := 1) (by omega) (by omega),
    usub_eq (by omega) (by omega), ofInt_natCast (by omega), umul_eq (by omega)]
  push_cast
  rfl

theorem mem_pass2_iff {w h bpp : Nat} (hsize : w * h * bpp < 2147483648) {p : Int × Int} :
    p ∈ pass2 w h bpp ↔ ∃ i j, i < h / 2 ∧ j < w * bpp / 2 ∧ p = columnSwap w h bpp i j := by
  rw [pass2_eq]
  simp only [List.mem_flatMap, List.mem_map, List.mem_range]
  constructor
  · rintro ⟨i, hi, j, hj, rfl⟩
    rw [halfRow_eq hsize (by omega)] at hj
    exact ⟨i, j, hi, hj, rfl⟩
  · rintro ⟨i, j, hi, hj, rfl⟩
    refine ⟨i, hi, j, ?_, rfl⟩
    rw [halfRow_eq hsize (by omega)]
    exact hj

/-- Two different swaps of pass 2 touch four different bytes. -/
theorem columnSwap_disjoint {w h bpp i j a b : Nat} (hsize : w * h * bpp < 2147483648)
    (hi : i < h / 2) (hj : j < w * bpp / 2) (ha : a < h / 2) (hb : b < w * bpp / 2)
    (hne : i ≠ a ∨ j ≠ b) :
    disjointSwaps (columnSwap w h bpp i j) (columnSwap w h bpp a b) := by
  rw [columnSwap_eq hsize hi hj, columnSwap_eq hsize ha hb]
  unfold disjointSwaps
  have hjU : j < w * bpp := by omega
  have hbU : b < w * bpp := by omega
  refine ⟨?_, ?_, ?_, ?_⟩
  · intro h'
    dsimp only at h'
    obtain ⟨e1, e2⟩ := mul_add_inj hjU hbU (show i * (w * bpp) + j = a * (w * bpp) + b by
      exact_mod_cast h')
    omega
  · intro h'
    dsimp only at h'
    obtain ⟨e1, e2⟩ := mul_add_inj hjU hbU
      (show i * (w * bpp) + j = (h - 1 - a) * (w * bpp) + b by exact_mod_cast h')
    omega
  · intro h'
    dsimp only at h'
    obtain ⟨e1, e2⟩ := mul_add_inj hjU hbU
      (show (h - 1 - i) * (w * bpp) + j = a * (w * bpp) + b by exact_mod_cast h')
    omega
  · intro h'
    dsimp only at h'
    obtain ⟨e1, e2⟩ := mul_add_inj hjU hbU
      (show (h - 1 - i) * (w * bpp) + j = (h - 1 - a) * (w * bpp) + b by exact_mod_cast h')
    omega

theorem pairwise_pass2 {w h bpp : Nat} (hsize : w * h * bpp < 2147483648) :
    (pass2 w h bpp).Pairwise disjointSwaps := by
  rw [pass2_eq, List.pairwise_flatMap]
  constructor
  · intro i hi
    rw [List.mem_range] at hi
    rw [List.pairwise_map, halfRow_eq hsize (by omega)]
    refine List.Pairwise.imp_of_mem ?_ (List.pairwise_lt_range (w * bpp / 2))
    intro j b hj hb hlt
    rw [List.mem_range] at hj hb
    exact columnSwap_disjoint hsize hi hj hi hb (Or.inr (by omega))
  · refine List.Pairwise.imp_of_mem ?_ (List.pairwise_lt_range (h / 2))
    intro i a hi ha hlt x hx y hy
    rw [List.mem_range] at hi ha
    rw [halfRow_eq hsize (by omega), List.mem_map] at hx hy
    obtain ⟨j, hj, rfl⟩ := hx
    obtain ⟨b, hb, rfl⟩ := hy
    rw [List.mem_range] at hj hb
    exact columnSwap_disjoint hsize hi hj ha hb (Or.inl (by omega))

/-- Pass 2: byte `c` of row `i` and byte `c` of row `h - 1 - i` are exchanged
for `i < h / 2` and `c` below half the row size; the other bytes stay. -/
theorem pass2_spec {w h bpp : Nat} (q : List uchar)
    (hsize : w * h * bpp < 2147483648) (hlen : q.length = w * h * bpp) :
    (∀ i c, i < h / 2 → c < w * bpp / 2 →
        ((pass2 w h bpp).foldl swapBytes q)[i * (w * bpp) + c]?
            = q[(h - 1 - i) * (w * bpp) + c]?
        ∧ ((pass2 w h bpp).foldl swapBytes q)[(h - 1 - i) * (w * bpp) + c]?
            = q[i * (w * bpp) + c]?)
    ∧ (∀ i c, i < h → c < w * bpp → (w * bpp / 2 ≤ c ∨ 2 * i + 1 = h) →
        ((pass2 w h bpp).foldl swapBytes q)[i * (w * bpp) + c]? = q[i * (w * bpp) + c]?) := by
  have hbnd : ∀ p, p ∈ pass2 w h bpp →
      0 ≤ p.1 ∧ p.1 < q.length ∧ 0 ≤ p.2 ∧ p.2 < q.length := by
    intro p hp
    obtain ⟨i, j, -, -, rfl, b1, b2⟩ := mem_pass2 hsize hp
    rw [hlen]
    exact ⟨by omega, by omega, by omega, by omega⟩
  obtain ⟨s1, s2⟩ := foldl_swapBytes_spec _ q hbnd (pairwise_pass2 hsize)
  constructor
  · intro i c hi hc
    have hm : columnSwap w h bpp i c ∈ pass2 w h bpp :=
      (mem_pass2_iff hsize).2 ⟨i, c, hi, hc, rfl⟩
    have := s1 _ hm
    rw [columnSwap_eq hsize hi hc] at this
    simpa using this
  · intro i c hi hc hor
    apply s2
    intro p hp
    obtain ⟨a, b, ha, hb, rfl⟩ := (mem_pass2_iff hsize).1 hp
    rw [columnSwap_eq hsize ha hb]
    have hbU : b < w * bpp := by omega
    constructor
    · intro h'
      dsimp only at h'
      obtain ⟨e1, e2⟩ := mul_add_inj hc hbU (show i * (w * bpp) + c = a * (w * bpp) + b by
        exact_mod_cast h')
      omega
    · intro h'
      dsimp only at h'
      obtain ⟨e1, e2⟩ := mul_add_inj hc hbU
        (show i * (w * bpp) + c = (h - 1 - a) * (w * bpp) + b by exact_mod_cast h')
      omega


/-! ## Rows read by `readImage` -/

/-- The rows `readImage` returns, for any width, at the stride the code
computes: for a file that holds its four header fields and its pixel rows, with
sizes and offsets that fit an `int`, row `height - 1 - i` of the buffer is the
`width * bytesPerPixel` file bytes at `dataOffset + i * paddedRowSize`. -/
theorem readImage_rows (file : List uchar) (stale : Stale)
    (dataOffset width height bitsPerPixel : Nat)
    (hD : fieldAt file 10 4 dataOffset) (hW : fieldAt file 18 4 width)
    (hH : fieldAt file 22 4 height) (hB : fieldAt file 28 2 bitsPerPixel)
    (hbits : bitsPerPixel < 32768)
    (hsize : width * height * (bitsPerPixel / 8) < 2147483648)
    (hpad : 0 ≤ paddedRowSize width (bitsPerPixel / 8))
    (hlen : file.length < 2147483648)
    (hrows : ∀ i, i < height →
      dataOffset + i * (paddedRowSize width (bitsPerPixel / 8)).toNat
        + width * (bitsPerPixel / 8) ≤ file.length) :
    ∃ img, readImage (some file) stale = some img
      ∧ img.width = width ∧ img.height = height ∧ img.bytesPerPixel = bitsPerPixel / 8
      ∧ img.pixels.length = width * height * (bitsPerPixel / 8)
      ∧ ∀ i, i < height →
          memRow img.pixels (width * (bitsPerPixel / 8)) (height - 1 - i)
            = fread file (dataOffset + i * (paddedRowSize width (bitsPerPixel / 8)).toNat)
                (width * (bitsPerPixel / 8)) := by
  have hD' := freadVar_four stale.dataOffset hD
  have hW' := freadVar_four stale.width hW
  have hH' := freadVar_four stale.height hH
  have hB' := freadVar_two stale.bitsPerPixel hB
  have hH32 : height < 4294967296 := by have := hH.2; omega
  rcases Nat.eq_zero_or_pos height with h0 | hpos
  · subst h0
    refine ⟨_, rfl, ?_⟩
    simp only [BITMAP_DATA_OFFSET, WIDTH_OFFSET, HEIGHT_OFFSET, BITS_PER_PIXEL_OFFSET, hD', hW',
      hH', hB', int16ToUInt32_eq hbits]
    refine ⟨trivial, trivial, trivial, ?_, fun i hi => absurd hi (Nat.not_lt_zero i)⟩
    simp [umul, toInt]
  · have hUle : width * (bitsPerPixel / 8) ≤ width * height * (bitsPerPixel / 8) := by
      have : width * (bitsPerPixel / 8) ≤ height * (width * (bitsPerPixel / 8)) :=
        Nat.le_mul_of_pos_left _ hpos
      have e : height * (width * (bitsPerPixel / 8)) = width * height * (bitsPerPixel / 8) := by
        ring
      omega
    have hU : unpaddedRowSize width (int16ToUInt32 bitsPerPixel / 8)
        = ((width * (bitsPerPixel / 8) : Nat) : Int) := by
      rw [int16ToUInt32_eq hbits]; exact unpaddedRowSize_eq (by omega)
    have hP : paddedRowSize width (int16ToUInt32 bitsPerPixel / 8)
        = (((paddedRowSize width (bitsPerPixel / 8)).toNat : Nat) : Int) := by
      rw [int16ToUInt32_eq hbits, Int.toNat_of_nonneg hpad]
    have hHU : height * (width * (bitsPerPixel / 8)) < 2147483648 := by
      have e : height * (width * (bitsPerPixel / 8)) = width * height * (bitsPerPixel / 8) := by
        ring
      omega
    obtain ⟨px, hpx, hl, hg⟩ := readImage_core file stale hD' hW' hH' hB' hU hP hH32 hHU
      (fun i hi => by have := hrows i hi; omega)
    rw [int16ToUInt32_eq hbits] at hpx
    refine ⟨_, hpx, rfl, rfl, rfl, by rw [hl]; ring, fun i hi => ?_⟩
    apply List.ext_getElem?
    intro c
    rw [getElem?_memRow]
    by_cases hc : c < width * (bitsPerPixel / 8)
    · rw [if_pos hc]
      exact hg i c hi (by rw [fread_length (hrows i hi)]; exact hc)
    · rw [if_neg hc, getElem?_fread, if_neg hc]

theorem fread_header_append (w h bpp : Nat) (rest : List uchar) {pos n : Nat}
    (hpn : pos + n ≤ 54) :
    fread (writeHeader w h bpp ++ rest) pos n = fread (writeHeader w h bpp) pos n := by
  unfold fread
  rw [List.drop_append_of_le_length (by rw [writeHeader_length]; omega)]
  rw [List.take_append_of_le_length (by rw [List.length_drop, writeHeader_length]; omega)]

/-- The four fields `readImage` looks at, in any file that starts with the
header `writeImage` writes. -/
theorem header_append_fields {w h : Nat} (bpp : Nat) (rest : List uchar)
    (hw : w < 4294967296) (hh : h < 4294967296) :
    fieldAt (writeHeader w h bpp ++ rest) 10 4 54
    ∧ fieldAt (writeHeader w h bpp ++ rest) 18 4 w
    ∧ fieldAt (writeHeader w h bpp ++ rest) 22 4 h
    ∧ fieldAt (writeHeader w h bpp ++ rest) 28 2 (bpp * 8 % 65536) := by
  obtain ⟨-, -, -, f10, -, f18, f22, -, f28, -⟩ := writeHeader_fields w h bpp
  have hbits : bpp * 8 % 65536 < 65536 := Nat.mod_lt _ (by decide)
  unfold fieldAt
  rw [fread_header_append w h bpp rest (show 10 + 4 ≤ 54 by decide),
    fread_header_append w h bpp rest (show 18 + 4 ≤ 54 by decide),
    fread_header_append w h bpp rest (show 22 + 4 ≤ 54 by decide),
    fread_header_append w h bpp rest (show 28 + 2 ≤ 54 by decide)]
  exact ⟨⟨f10, by omega⟩, ⟨f18, by omega⟩, ⟨f22, by omega⟩,
    ⟨by rw [f28]; exact le_two_umul_eight bpp, by omega⟩⟩

theorem getElem?_header_append (w h bpp : Nat) (rest : List uchar) (n : Nat) :
    (writeHeader w h bpp ++ rest)[54 + n]? = rest[n]? := by
  rw [List.getElem?_append_right (by rw [writeHeader_length]; omega), writeHeader_length]
  congr 1
  omega

/-- A file of width 16777217, height 2, one byte per pixel, whose pixel area
`rest` has 33554437 bytes: `readImage` reads the second disk row at the stride
16777216 the code computes, so byte 0 of the buffer is byte 16777216 of the
pixel area. -/
theorem readImage_wide_file (rest : List uchar) (stale : Stale)
    (hlen : rest.length = 33554437) :
    ∃ px, readImage (some (writeHeader 16777217 2 1 ++ rest)) stale
        = some ⟨16777217, 2, 1, px⟩
      ∧ px[0]? = rest[16777216]? := by
  obtain ⟨f10, f18, f22, f28⟩ := header_append_fields 1 rest
    (show 16777217 < 4294967296 by decide) (show 2 < 4294967296 by decide)
  have e8 : 1 * 8 % 65536 = 8 := by decide
  rw [e8] at f28
  obtain ⟨px, hpx, -, hg⟩ := readImage_core (writeHeader 16777217 2 1 ++ rest) stale
    (freadVar_four stale.dataOffset f10) (freadVar_four stale.width f18)
    (freadVar_four stale.height f22) (freadVar_two stale.bitsPerPixel f28)
    (show unpaddedRowSize 16777217 (int16ToUInt32 8 / 8) = ((16777217 : Nat) : Int) by decide)
    (show paddedRowSize 16777217 (int16ToUInt32 8 / 8) = ((16777216 : Nat) : Int) by decide)
    (by decide) (by decide) (fun i hi => by omega)
  have e1 : int16ToUInt32 8 / 8 = 1 := by decide
  rw [e1] at hpx
  refine ⟨px, hpx, ?_⟩
  have hfull : (fread (writeHeader 16777217 2 1 ++ rest) (54 + 1 * 16777216) 16777217).length
      = 16777217 :=
    fread_length (by rw [List.length_append, writeHeader_length, hlen]; decide)
  have h1 := hg 1 0 (by decide) (by rw [hfull]; decide)
  have e2 : (2 - 1 - 1) * 16777217 + 0 = 0 := by decide
  have e3 : 54 + 1 * 16777216 + 0 = 54 + 16777216 := by decide
  rw [e2, getElem?_fread, if_pos (by decide), e3, getElem?_header_append] at h1
  exact h1

theorem wide_rest_length :
    (List.replicate 16777216 (byte 0) ++ byte 1 :: List.replicate 16777220 (byte 0)).length
      = 33554437 := by
  rw [List.length_append, List.length_cons, List.length_replicate, List.length_replicate]

theorem getElem?_wide_rest_mark :
    (List.replicate 16777216 (byte 0) ++ byte 1 :: List.replicate 16777220 (byte 0))[16777216]?
      = some (byte 1) := by
  rw [List.getElem?_append_right (by rw [List.length_replicate]), List.length_replicate,
    Nat.sub_self, List.getElem?_cons_zero]

theorem getElem?_wide_rest_after :
    (List.replicate 16777216 (byte 0) ++ byte 1 :: List.replicate 16777220 (byte 0))[16777220]?
      = some (byte 0) := by
  have e : 16777220 - 16777216 = 3 + 1 := by decide
  rw [List.getElem?_append_right (by rw [List.length_replicate]; decide),
    List.length_replicate, e, List.getElem?_cons_succ, List.getElem?_replicate,
    if_pos (by decide)]

/-! ## The codec: `writeImage` and `readImage` -/

/-- C1, as stated, fails: width 16777217, height 2, one byte per pixel meets
every condition of the claim, but `(float)16777217` is 16777216, the rows on
disk are one byte short, and the byte read back at index 33554433 (the last of
in-memory row 1) is the buffer's byte 0. -/
theorem roundtrip_counterexample :
    (1 ≤ 16777217 ∧ 1 ≤ 2 ∧ 1 ≤ 1 ∧ 1 * 8 < 32768
      ∧ (byte 1 :: List.replicate 33554433 (byte 0)).length = 16777217 * 2 * 1
      ∧ 16777217 * 2 * 1 < 2147483648
      ∧ (4 * ⌈((16777217 : Nat) : ℚ) / 4⌉₊ * 1) * 2 + 54 < 2147483648)
    ∧ readImage (some (writeImage (byte 1 :: List.replicate 33554433 (byte 0)) (fun _ => 0)
          16777217 2 1)) ⟨0, 0, 0, 0, fun _ => 0⟩
        ≠ some ⟨16777217, 2, 1, byte 1 :: List.replicate 33554433 (byte 0)⟩ := by
  refine ⟨⟨by decide, by decide, by decide, by decide, wide_pixels_length, by decide,
    by rw [natCeil_div_four]; decide⟩, fun heq => ?_⟩
  obtain ⟨f10, f18, f22, f28⟩ := writeImage_fields (byte 1 :: List.replicate 33554433 (byte 0))
    (fun _ => 0) 1 (show 16777217 < 4294967296 by decide) (show 2 < 4294967296 by decide)
  have e8 : 1 * 8 % 65536 = 8 := by decide
  rw [e8] at f28
  obtain ⟨px, hpx, -, hg⟩ := readImage_core
    (writeImage (byte 1 :: List.replicate 33554433 (byte 0)) (fun _ => 0) 16777217 2 1)
    ⟨0, 0, 0, 0, fun _ => 0⟩ (freadVar_four 0 f10) (freadVar_four 0 f18) (freadVar_four 0 f22)
    (freadVar_two 0 f28)
    (show unpaddedRowSize 16777217 (int16ToUInt32 8 / 8) = ((16777217 : Nat) : Int) by decide)
    (show paddedRowSize 16777217 (int16ToUInt32 8 / 8) = ((16777216 : Nat) : Int) by decide)
    (by decide) (by decide) (fun i hi => by omega)
  rw [hpx] at heq
  have hpe : px = byte 1 :: List.replicate 33554433 (byte 0) := by
    injection heq with h1
    injection h1
  have hfull : (fread (writeImage (byte 1 :: List.replicate 33554433 (byte 0)) (fun _ => 0)
      16777217 2 1) (54 + 0 * 16777216) 16777217).length = 16777217 :=
    fread_length (by rw [writeImage_length]; decide)
  have h1 := hg 0 16777216 (by decide) (by rw [hfull]; decide)
  have e1 : 54 + 0 * 16777216 + 16777216 = 54 + 16777216 := by decide
  have e2 : (2 - 1 - 0) * 16777217 + 16777216 = 33554432 + 1 := by decide
  rw [getElem?_fread, if_pos (by decide), e1, writeImage_wide_byte _ _ wide_pixels_length,
    getElem?_wide_pixels_zero, e2, hpe, getElem?_wide_pixels_last] at h1
  exact absurd h1 (by decide)

/-- C1, amended. For a width from 1 to `2^24 - 1`, height and bytes per pixel
at least 1, `bytesPerPixel * 8` fitting a signed 16-bit field, a file size that
fits an `int`, and a buffer of `width * height * bytesPerPixel` bytes,
`readImage` applied to the file `writeImage` produced succeeds and returns the
same width, height, bytes per pixel and buffer, whatever the width modulo 4. -/
theorem roundtrip (pixels : List uchar) (outside : Int → uchar) (stale : Stale)
    (width height bytesPerPixel : Nat)
    (hw1 : 1 ≤ width) (hw : width < 16777216) (hh1 : 1 ≤ height) (hb1 : 1 ≤ bytesPerPixel)
    (hbits : bytesPerPixel * 8 < 32768)
    (hsize : 4 * ⌈(width : ℚ) / 4⌉₊ * bytesPerPixel * height + 54 < 2147483648)
    (hlen : pixels.length = width * height * bytesPerPixel) :
    readImage (some (writeImage pixels outside width height bytesPerPixel)) stale
      = some ⟨width, height, bytesPerPixel, pixels⟩ := by
  rw [natCeil_div_four] at hsize
  have hPH : 4 * ((width + 3) / 4) * bytesPerPixel
      ≤ 4 * ((width + 3) / 4) * bytesPerPixel * height := Nat.le_mul_of_pos_right _ hh1
  have hUP : width * bytesPerPixel ≤ 4 * ((width + 3) / 4) * bytesPerPixel :=
    Nat.mul_le_mul_right _ (by omega)
  have hUH : height * (width * bytesPerPixel)
      ≤ 4 * ((width + 3) / 4) * bytesPerPixel * height := by
    rw [Nat.mul_comm height]; exact Nat.mul_le_mul_right _ hUP
  have hWHB : width * height * bytesPerPixel = height * (width * bytesPerPixel) := by ring
  have hH32 : height < 4294967296 := by
    have : height ≤ height * (width * bytesPerPixel) :=
      Nat.le_mul_of_pos_right _ (Nat.mul_pos hw1 hb1)
    omega
  obtain ⟨f10, f18, f22, f28⟩ := writeImage_fields pixels outside bytesPerPixel
    (show width < 4294967296 by omega) hH32
  have e8 : bytesPerPixel * 8 % 65536 = bytesPerPixel * 8 := Nat.mod_eq_of_lt (by omega)
  rw [e8] at f28
  have hB : int16ToUInt32 (bytesPerPixel * 8) / 8 = bytesPerPixel := by
    rw [int16ToUInt32_eq hbits]; omega
  have hpadfit : 4 * ((width + 3) / 4) * bytesPerPixel < 2147483648 := by omega
  obtain ⟨px, hpx, hl, hg⟩ := readImage_core (writeImage pixels outside width height bytesPerPixel)
    stale (freadVar_four stale.dataOffset f10) (freadVar_four stale.width f18)
    (freadVar_four stale.height f22) (freadVar_two stale.bitsPerPixel f28)
    (show unpaddedRowSize width (int16ToUInt32 (bytesPerPixel * 8) / 8)
        = ((width * bytesPerPixel : Nat) : Int) by
      rw [hB]; exact unpaddedRowSize_eq (by omega))
    (show paddedRowSize width (int16ToUInt32 (bytesPerPixel * 8) / 8)
        = ((4 * ((width + 3) / 4) * bytesPerPixel : Nat) : Int) by
      rw [hB]; exact paddedRowSize_eq hw hpadfit)
    hH32 (by omega)
    (fun i hi => by
      have : i * (4 * ((width + 3) / 4) * bytesPerPixel)
          ≤ height * (4 * ((width + 3) / 4) * bytesPerPixel) :=
        Nat.mul_le_mul_right _ (by omega)
      rw [Nat.mul_comm height] at this
      omega)
  rw [hB] at hpx
  rw [hpx]
  have hpe : px = pixels := by
    apply List.ext_getElem?
    intro n
    by_cases hn : n < height * (width * bytesPerPixel)
    · have hU0 : 0 < width * bytesPerPixel := Nat.mul_pos hw1 hb1
      obtain ⟨q, c, hq, hc, hdm⟩ : ∃ q c, q < height ∧ c < width * bytesPerPixel
          ∧ q * (width * bytesPerPixel) + c = n :=
        ⟨n / (width * bytesPerPixel), n % (width * bytesPerPixel),
          by rw [Nat.div_lt_iff_lt_mul hU0]; exact hn, Nat.mod_lt _ hU0,
          by rw [Nat.mul_comm]; exact Nat.div_add_mod n _⟩
      have hi : height - 1 - q < height := by omega
      have hrow := fread_writeImage_row pixels outside hw hpadfit (by omega) hlen hi
      have er : height - 1 - (height - 1 - q) = q := by omega
      have hfull : (fread (writeImage pixels outside width height bytesPerPixel)
          (54 + (height - 1 - q) * (4 * ((width + 3) / 4) * bytesPerPixel))
            (width * bytesPerPixel)).length = width * bytesPerPixel := by
        rw [hrow]; unfold memRow
        rw [List.length_take, List.length_drop, hlen, hWHB, er]
        have h3 : (q + 1) * (width * bytesPerPixel) ≤ height * (width * bytesPerPixel) :=
          Nat.mul_le_mul_right _ (by omega)
        rw [Nat.add_mul] at h3
        omega
      have h1 := hg (height - 1 - q) c hi (by rw [hfull]; exact hc)
      rw [hrow, getElem?_memRow, if_pos hc, er, hdm] at h1
      exact h1
    · rw [List.getElem?_eq_none (by omega), List.getElem?_eq_none (by omega)]
  rw [hpe]

theorem roundtrip_witness :
    (1 ≤ 5 ∧ 5 < 16777216 ∧ 1 ≤ 2 ∧ 1 ≤ 3 ∧ 3 * 8 < 32768
      ∧ 4 * ⌈((5 : Nat) : ℚ) / 4⌉₊ * 3 * 2 + 54 < 2147483648
      ∧ (List.replicate 15 (byte 1) ++ List.replicate 15 (byte 2)).length = 5 * 2 * 3)
    ∧ readImage (some (writeImage (List.replicate 15 (byte 1) ++ List.replicate 15 (byte 2))
          (fun _ => 9) 5 2 3)) ⟨0, 0, 0, 0, fun _ => 0⟩
        = some ⟨5, 2, 3, List.replicate 15 (byte 1) ++ List.replicate 15 (byte 2)⟩ :=
  have h : 4 * ⌈((5 : Nat) : ℚ) / 4⌉₊ * 3 * 2 + 54 < 2147483648 := by
    rw [natCeil_div_four]; decide
  ⟨⟨by decide, by decide, by decide, by decide, by decide, h, by decide⟩,
    roundtrip (List.replicate 15 (byte 1) ++ List.replicate 15 (byte 2)) (fun _ => 9)
      ⟨0, 0, 0, 0, fun _ => 0⟩ 5 2 3 (by decide) (by decide) (by decide) (by decide) (by decide)
      h (by decide)⟩

/-- C2. The first 54 bytes written by `writeImage` are, in order and
little-endian: the signature "BM", `fileSize`, reserved 0, data offset 54, info
header size 40, width, height, colour planes 1, bits per pixel
(`bytesPerPixel * 8` as a 16-bit value), compression 0, `imageSize`, the two
resolutions 3937, colours used 0, important colours 0; the pixel rows follow
from byte 54 on. -/
theorem writeImage_header_layout (pixels : List uchar) (outside : Int → uchar)
    (width height bytesPerPixel : Nat)
    (hw : width < 4294967296) (hh : height < 4294967296) :
    fread (writeImage pixels outside width height bytesPerPixel) 0 2
        = "BM".toList.map (fun ch => byte ch.toNat)
    ∧ fieldAt (writeImage pixels outside width height bytesPerPixel) 2 4
        (fileSize width height bytesPerPixel)
    ∧ fieldAt (writeImage pixels outside width height bytesPerPixel) 6 4 0
    ∧ fieldAt (writeImage pixels outside width height bytesPerPixel) 10 4 54
    ∧ fieldAt (writeImage pixels outside width height bytesPerPixel) 14 4 40
    ∧ fieldAt (writeImage pixels outside width height bytesPerPixel) 18 4 width
    ∧ fieldAt (writeImage pixels outside width height bytesPerPixel) 22 4 height
    ∧ fieldAt (writeImage pixels outside width height bytesPerPixel) 26 2 1
    ∧ fieldAt (writeImage pixels outside width height bytesPerPixel) 28 2
        (bytesPerPixel * 8 % 65536)
    ∧ fieldAt (writeImage pixels outside width height bytesPerPixel) 30 4 0
    ∧ fieldAt (writeImage pixels outside width height bytesPerPixel) 34 4
        (imageSize width height bytesPerPixel)
    ∧ fieldAt (writeImage pixels outside width height bytesPerPixel) 38 4 3937
    ∧ fieldAt (writeImage pixels outside width height bytesPerPixel) 42 4 3937
    ∧ fieldAt (writeImage pixels outside width height bytesPerPixel) 46 4 0
    ∧ fieldAt (writeImage pixels outside width height bytesPerPixel) 50 4 0
    ∧ (writeImage pixels outside width height bytesPerPixel).drop 54
        = (List.range height).flatMap (writeRow pixels outside width height bytesPerPixel) := by
  obtain ⟨f0, f2, f6, f10, f14, f18, f22, f26, f28, f30, f34, f38, f42, f46, f50⟩ :=
    writeHeader_fields width height bytesPerPixel
  have hfs := fileSize_lt width height bytesPerPixel
  have his := imageSize_lt width height bytesPerPixel
  have hbits : bytesPerPixel * 8 % 65536 < 65536 := Nat.mod_lt _ (by decide)
  unfold fieldAt
  simp only [fread_writeImage_header pixels outside width height bytesPerPixel
    (show 0 + 2 ≤ 54 by decide), fread_writeImage_header pixels outside width height
    bytesPerPixel (show 2 + 4 ≤ 54 by decide), fread_writeImage_header pixels outside width
    height bytesPerPixel (show 6 + 4 ≤ 54 by decide), fread_writeImage_header pixels outside
    width height bytesPerPixel (show 10 + 4 ≤ 54 by decide), fread_writeImage_header pixels
    outside width height bytesPerPixel (show 14 + 4 ≤ 54 by decide), fread_writeImage_header
    pixels outside width height bytesPerPixel (show 18 + 4 ≤ 54 by decide),
    fread_writeImage_header pixels outside width height bytesPerPixel
    (show 22 + 4 ≤ 54 by decide), fread_writeImage_header pixels outside width height
    bytesPerPixel (show 26 + 2 ≤ 54 by decide), fread_writeImage_header pixels outside width
    height bytesPerPixel (show 28 + 2 ≤ 54 by decide), fread_writeImage_header pixels outside
    width height bytesPerPixel (show 30 + 4 ≤ 54 by decide), fread_writeImage_header pixels
    outside width height bytesPerPixel (show 34 + 4 ≤ 54 by decide), fread_writeImage_header
    pixels outside width height bytesPerPixel (show 38 + 4 ≤ 54 by decide),
    fread_writeImage_header pixels outside width height bytesPerPixel
    (show 42 + 4 ≤ 54 by decide), fread_writeImage_header pixels outside width height
    bytesPerPixel (show 46 + 4 ≤ 54 by decide), fread_writeImage_header pixels outside width
    height bytesPerPixel (show 50 + 4 ≤ 54 by decide)]
  refine ⟨by rw [f0]; rfl, ⟨f2, by omega⟩, ⟨f6, by omega⟩, ⟨f10, by omega⟩, ⟨f14, by omega⟩,
    ⟨f18, by omega⟩, ⟨f22, by omega⟩, ⟨f26, by omega⟩,
    ⟨by rw [f28]; exact le_two_umul_eight bytesPerPixel, by omega⟩, ⟨f30, by omega⟩,
    ⟨f34, by omega⟩, ⟨f38, by omega⟩, ⟨f42, by omega⟩, ⟨f46, by omega⟩, ⟨f50, by omega⟩, ?_⟩
  unfold writeImage
  rw [List.drop_append_of_le_length (by rw [writeHeader_length])]
  rw [List.drop_of_length_le (by rw [writeHeader_length]), List.nil_append]

theorem writeImage_header_layout_witness :
    (1 < 4294967296 ∧ 1 < 4294967296)
    ∧ fieldAt (writeImage [byte 1, byte 2, byte 3] (fun _ => 0) 1 1 3) 18 4 1
    ∧ fieldAt (writeImage [byte 1, byte 2, byte 3] (fun _ => 0) 1 1 3) 28 2 24 :=
  ⟨⟨by decide, by decide⟩,
   (writeImage_header_layout [byte 1, byte 2, byte 3] (fun _ => 0) 1 1 3
      (by decide) (by decide)).2.2.2.2.2.1,
   (writeImage_header_layout [byte 1, byte 2, byte 3] (fun _ => 0) 1 1 3
      (by decide) (by decide)).2.2.2.2.2.2.2.2.1⟩

/-- C3 at its failing input: a 5x1 buffer with 3 bytes per pixel. The padded
row size is 24, `writeImage` writes 24 bytes of row data after the 54 header
bytes and stores `54 + 24` in the `fileSize` field, so `paddedRowSize * height`
is 24; bytes 34-37 nevertheless hold `width * height * bytesPerPixel = 15`. -/
theorem imageSize_field_ignores_padding :
    paddedRowSize 5 3 * 1 = 24 ∧ 4 * ⌈((5 : Nat) : ℚ) / 4⌉₊ * 3 * 1 = 24
    ∧ (writeImage (List.replicate 15 (byte 0)) (fun _ => 0) 5 1 3).length = 54 + 24
    ∧ fieldAt (writeImage (List.replicate 15 (byte 0)) (fun _ => 0) 5 1 3) 2 4 (54 + 24)
    ∧ fieldAt (writeImage (List.replicate 15 (byte 0)) (fun _ => 0) 5 1 3) 34 4 15
    ∧ ¬ fieldAt (writeImage (List.replicate 15 (byte 0)) (fun _ => 0) 5 1 3) 34 4 24 := by
  refine ⟨by decide, by rw [natCeil_div_four], by decide, by decide, by decide, by decide⟩

/-- C4, as stated, fails: for width 16777217, height 1 and one byte per pixel
`4 * ceil(width/4) * bytesPerPixel * height + 54` is 16777274, but bytes 2-5
hold 16777270, because `(float)16777217` is 16777216. -/
theorem fileSize_field_counterexample :
    (4 * ⌈((16777217 : Nat) : ℚ) / 4⌉₊ * 1 * 1 + 54) % 4294967296 = 16777274
    ∧ fieldAt (writeImage (List.replicate 16777217 (byte 0)) (fun _ => 0) 16777217 1 1) 2 4
        16777270
    ∧ ¬ fieldAt (writeImage (List.replicate 16777217 (byte 0)) (fun _ => 0) 16777217 1 1) 2 4
        16777274 := by
  have h0 : fieldAt (writeImage (List.replicate 16777217 (byte 0)) (fun _ => 0) 16777217 1 1)
      2 4 (fileSize 16777217 1 1) := fieldAt_fileSize _ _ _ _ _
  have e : fileSize 16777217 1 1 = 16777270 := by decide
  rw [e] at h0
  refine ⟨by rw [natCeil_div_four], h0, fun h1 => ?_⟩
  exact absurd (fieldAt_four_unique h0 h1) (by decide)

/-- C4, amended. For every width below `2^24` (where the conversion of the
width to `float` is exact), bytes 2-5 written by `writeImage` hold
`4 * ceil(width/4) * bytesPerPixel * height + 54` modulo `2^32`; that is 102 for
a 4x4 buffer with 3 bytes per pixel. -/
theorem fileSize_field (pixels : List uchar) (outside : Int → uchar)
    (width height bytesPerPixel : Nat) (hw : width < 16777216) :
    fieldAt (writeImage pixels outside width height bytesPerPixel) 2 4
        ((4 * ⌈(width : ℚ) / 4⌉₊ * bytesPerPixel * height + 54) % 4294967296)
    ∧ fieldAt (writeImage pixels outside 4 4 3) 2 4 102 := by
  constructor
  · rw [natCeil_div_four, ← fileSize_eq height bytesPerPixel hw]
    exact fieldAt_fileSize _ _ _ _ _
  · exact fieldAt_fileSize pixels outside 4 4 3

theorem fileSize_field_witness :
    5 < 16777216
    ∧ fieldAt (writeImage (List.replicate 30 (byte 7)) (fun _ => 0) 5 2 3) 2 4
        ((4 * ⌈((5 : Nat) : ℚ) / 4⌉₊ * 3 * 2 + 54) % 4294967296) :=
  ⟨by decide, (fileSize_field (List.replicate 30 (byte 7)) (fun _ => 0) 5 2 3 (by decide)).1⟩

/-- C5 at its failing input: a 1x2 buffer `[7, 9]` with one byte per pixel, the
memory around the buffer all zero. Disk row 1 is in-memory row 0, the byte 7;
its three padding bytes are `9, 0, 0`, the bytes that follow row 0 in memory,
and not three zero bytes. -/
theorem writeImage_padding_not_zero :
    paddedRowSize 1 1 = 4 ∧ unpaddedRowSize 1 1 = 1
    ∧ fread (writeImage [byte 7, byte 9] (fun _ => 0) 1 2 1) (54 + 1 * 4) 4
        = [byte 7, byte 9, byte 0, byte 0] := by
  decide

/-- C6. For a width below `2^24` whose padded row fits an `int`, the padded row
size that `readImage` and `writeImage` compute is `4 * ceil(width/4) *
bytesPerPixel`; it is a multiple of 4 and at least the unpadded row size
`width * bytesPerPixel`; every row `writeImage` emits has that many bytes; for
width 5 and 3 bytes per pixel it is 24 against 15, nine padding bytes. -/
theorem paddedRowSize_spec (width bytesPerPixel : Nat) (hw : width < 16777216)
    (hfit : 4 * ⌈(width : ℚ) / 4⌉₊ * bytesPerPixel < 2147483648) :
    paddedRowSize width bytesPerPixel = ((4 * ⌈(width : ℚ) / 4⌉₊ * bytesPerPixel : Nat) : Int)
    ∧ (4 : Int) ∣ paddedRowSize width bytesPerPixel
    ∧ unpaddedRowSize width bytesPerPixel = ((width * bytesPerPixel : Nat) : Int)
    ∧ unpaddedRowSize width bytesPerPixel ≤ paddedRowSize width bytesPerPixel
    ∧ (∀ (pixels : List uchar) (outside : Int → uchar) (height i : Nat),
        (writeRow pixels outside width height bytesPerPixel i).length
          = 4 * ⌈(width : ℚ) / 4⌉₊ * bytesPerPixel)
    ∧ paddedRowSize 5 3 = 24 ∧ unpaddedRowSize 5 3 = 15
    ∧ paddedRowSize 5 3 - unpaddedRowSize 5 3 = 9 := by
  rw [natCeil_div_four] at hfit ⊢
  have hc : width ≤ 4 * ((width + 3) / 4) := by omega
  have hu : width * bytesPerPixel ≤ 4 * ((width + 3) / 4) * bytesPerPixel :=
    Nat.mul_le_mul_right _ hc
  have hp := paddedRowSize_eq hw hfit
  have hq := @unpaddedRowSize_eq width bytesPerPixel (by omega)
  refine ⟨hp, ?_, hq, ?_, ?_, by decide, by decide, by decide⟩
  · rw [hp]
    exact ⟨(((width + 3) / 4 * bytesPerPixel : Nat) : Int), by push_cast; ring⟩
  · rw [hp, hq]; exact_mod_cast hu
  · intro pixels outside height i
    unfold writeRow
    rw [List.length_map, List.length_range, hp, Int.toNat_ofNat]

theorem paddedRowSize_spec_witness :
    (5 < 16777216 ∧ 4 * ⌈((5 : Nat) : ℚ) / 4⌉₊ * 3 < 2147483648)
    ∧ paddedRowSize 5 3 = ((4 * ⌈((5 : Nat) : ℚ) / 4⌉₊ * 3 : Nat) : Int) :=
  have h : 4 * ⌈((5 : Nat) : ℚ) / 4⌉₊ * 3 < 2147483648 := by
    rw [natCeil_div_four]; decide
  ⟨⟨by decide, h⟩, (paddedRowSize_spec 5 3 (by decide) h).1⟩

/-- C7, as stated, fails: for width 16777217, height 2 and one byte per pixel
the rows on disk are 16777216 bytes long, one byte short of a row in memory, so
the 16777217 bytes at file offset 54 are not in-memory row 1: the last of them
is the first byte of in-memory row 0. -/
theorem writeImage_row_order_counterexample :
    (byte 1 :: List.replicate 33554433 (byte 0)).length = 16777217 * 2 * 1
    ∧ 16777217 * 2 * 1 < 2147483648
    ∧ paddedRowSize 16777217 1 = 16777216
    ∧ fread (writeImage (byte 1 :: List.replicate 33554433 (byte 0)) (fun _ => 0) 16777217 2 1)
          (54 + 0 * 16777216) 16777217
        ≠ memRow (byte 1 :: List.replicate 33554433 (byte 0)) 16777217 (2 - 1 - 0) := by
  refine ⟨wide_pixels_length, by decide, by decide, fun heq => ?_⟩
  have h1 := congrArg (fun l => l[16777216]?) heq
  simp only [] at h1
  rw [getElem?_fread, getElem?_memRow, if_pos (by decide), if_pos (by decide)] at h1
  have e1 : 54 + 0 * 16777216 + 16777216 = 54 + 16777216 := by decide
  have e2 : (2 - 1 - 0) * 16777217 + 16777216 = 33554432 + 1 := by decide
  rw [e1, writeImage_wide_byte _ _ wide_pixels_length, getElem?_wide_pixels_zero, e2,
    getElem?_wide_pixels_last] at h1
  exact absurd h1 (by decide)

/-- C7, amended. For a width below `2^24`, without 32-bit overflow of the row
and buffer sizes, the first `unpaddedRowSize` bytes of disk row `i` (file offset
`54 + i * paddedRowSize`) are in-memory row `height - 1 - i`; the first disk row
is in-memory row `height - 1`, the last one in-memory row 0. -/
theorem writeImage_row_order (pixels : List uchar) (outside : Int → uchar)
    (width height bytesPerPixel i : Nat) (hw : width < 16777216)
    (hpad : 4 * ⌈(width : ℚ) / 4⌉₊ * bytesPerPixel < 2147483648)
    (hsize : width * height * bytesPerPixel < 2147483648)
    (hlen : pixels.length = width * height * bytesPerPixel) (hi : i < height) :
    paddedRowSize width bytesPerPixel = ((4 * ⌈(width : ℚ) / 4⌉₊ * bytesPerPixel : Nat) : Int)
    ∧ fread (writeImage pixels outside width height bytesPerPixel)
          (54 + i * (4 * ⌈(width : ℚ) / 4⌉₊ * bytesPerPixel)) (width * bytesPerPixel)
        = memRow pixels (width * bytesPerPixel) (height - 1 - i)
    ∧ fread (writeImage pixels outside width height bytesPerPixel) 54 (width * bytesPerPixel)
        = memRow pixels (width * bytesPerPixel) (height - 1)
    ∧ fread (writeImage pixels outside width height bytesPerPixel)
          (54 + (height - 1) * (4 * ⌈(width : ℚ) / 4⌉₊ * bytesPerPixel))
          (width * bytesPerPixel)
        = memRow pixels (width * bytesPerPixel) 0 := by
  rw [natCeil_div_four] at hpad ⊢
  refine ⟨paddedRowSize_eq hw hpad, fread_writeImage_row pixels outside hw hpad hsize hlen hi,
    ?_, ?_⟩
  · have h0 := fread_writeImage_row pixels outside hw hpad hsize hlen
      (show 0 < height by omega)
    rw [Nat.zero_mul, Nat.add_zero, Nat.sub_zero] at h0
    exact h0
  · have hl := fread_writeImage_row pixels outside hw hpad hsize hlen
      (show height - 1 < height by omega)
    rw [Nat.sub_self] at hl
    exact hl

theorem writeImage_row_order_witness :
    (5 < 16777216 ∧ 4 * ⌈((5 : Nat) : ℚ) / 4⌉₊ * 1 < 2147483648 ∧ 5 * 2 * 1 < 2147483648
      ∧ (List.replicate 5 (byte 1) ++ List.replicate 5 (byte 2)).length = 5 * 2 * 1 ∧ 0 < 2)
    ∧ fread (writeImage (List.replicate 5 (byte 1) ++ List.replicate 5 (byte 2)) (fun _ => 0)
          5 2 1) (54 + 0 * (4 * ⌈((5 : Nat) : ℚ) / 4⌉₊ * 1)) (5 * 1)
        = memRow (List.replicate 5 (byte 1) ++ List.replicate 5 (byte 2)) (5 * 1) (2 - 1 - 0) :=
  have h : 4 * ⌈((5 : Nat) : ℚ) / 4⌉₊ * 1 < 2147483648 := by
    rw [natCeil_div_four]; decide
  ⟨⟨by decide, h, by decide, by decide, by decide⟩,
    (writeImage_row_order (List.replicate 5 (byte 1) ++ List.replicate 5 (byte 2)) (fun _ => 0)
      5 2 1 0 (by decide) h (by decide) (by decide) (by decide)).2.1⟩

/-- C8, as stated, fails: in a file of width 16777217, height 2 and 8 bits per
pixel that holds its header and both rows at the stride `4 * ceil(width/4) *
bytesPerPixel = 16777220`, `readImage` reads the second disk row at offset
`54 + 16777216`, because `(float)16777217` is 16777216; in-memory row 0 then
starts with the byte 1 found there, not with the byte 0 at `54 + 16777220`. -/
theorem readImage_spec_counterexample :
    (fieldAt (writeHeader 16777217 2 1
        ++ (List.replicate 16777216 (byte 0) ++ byte 1 :: List.replicate 16777220 (byte 0)))
        10 4 54
      ∧ fieldAt (writeHeader 16777217 2 1
        ++ (List.replicate 16777216 (byte 0) ++ byte 1 :: List.replicate 16777220 (byte 0)))
        18 4 16777217
      ∧ fieldAt (writeHeader 16777217 2 1
        ++ (List.replicate 16777216 (byte 0) ++ byte 1 :: List.replicate 16777220 (byte 0)))
        22 4 2
      ∧ fieldAt (writeHeader 16777217 2 1
        ++ (List.replicate 16777216 (byte 0) ++ byte 1 :: List.replicate 16777220 (byte 0)))
        28 2 8
      ∧ 4 * ⌈((16777217 : Nat) : ℚ) / 4⌉₊ * (8 / 8) = 16777220
      ∧ 54 + 1 * 16777220 + 16777217 * (8 / 8)
          ≤ (writeHeader 16777217 2 1 ++ (List.replicate 16777216 (byte 0)
              ++ byte 1 :: List.replicate 16777220 (byte 0))).length
      ∧ (writeHeader 16777217 2 1 ++ (List.replicate 16777216 (byte 0)
              ++ byte 1 :: List.replicate 16777220 (byte 0))).length < 2147483648)
    ∧ ∃ img, readImage (some (writeHeader 16777217 2 1
          ++ (List.replicate 16777216 (byte 0) ++ byte 1 :: List.replicate 16777220 (byte 0))))
          ⟨0, 0, 0, 0, fun _ => 0⟩ = some img
        ∧ img.width = 16777217 ∧ img.height = 2 ∧ img.bytesPerPixel = 8 / 8
        ∧ memRow img.pixels (16777217 * (8 / 8)) (2 - 1 - 1)
            ≠ fread (writeHeader 16777217 2 1 ++ (List.replicate 16777216 (byte 0)
                ++ byte 1 :: List.replicate 16777220 (byte 0)))
                (54 + 1 * 16777220) (16777217 * (8 / 8)) := by
  obtain ⟨f10, f18, f22, f28⟩ := header_append_fields 1
    (List.replicate 16777216 (byte 0) ++ byte 1 :: List.replicate 16777220 (byte 0))
    (show 16777217 < 4294967296 by decide) (show 2 < 4294967296 by decide)
  have e8 : 1 * 8 % 65536 = 8 := by decide
  rw [e8] at f28
  have hl : (writeHeader 16777217 2 1 ++ (List.replicate 16777216 (byte 0)
      ++ byte 1 :: List.replicate 16777220 (byte 0))).length = 33554491 := by
    rw [List.length_append, writeHeader_length, wide_rest_length]
  refine ⟨⟨f10, f18, f22, f28, by rw [natCeil_div_four], le_of_eq (by rw [hl]),
    by rw [hl]; decide⟩, ?_⟩
  obtain ⟨px, hpx, h0⟩ := readImage_wide_file
    (List.replicate 16777216 (byte 0) ++ byte 1 :: List.replicate 16777220 (byte 0))
    ⟨0, 0, 0, 0, fun _ => 0⟩ wide_rest_length
  refine ⟨_, hpx, rfl, rfl, rfl, fun heq => ?_⟩
  have h1 := congrArg (fun l => l[0]?) heq
  simp only [] at h1
  have e0 : (2 - 1 - 1) * (16777217 * (8 / 8)) + 0 = 0 := by decide
  have e1 : 54 + 1 * 16777220 + 0 = 54 + 16777220 := by decide
  rw [getElem?_memRow, getElem?_fread, if_pos (by decide), if_pos (by decide), e0, e1, h0,
    getElem?_header_append, getElem?_wide_rest_mark, getElem?_wide_rest_after] at h1
  exact absurd h1 (by decide)

/-- C8, amended. For a width below `2^24`, and a file that holds its header and
its pixel rows (sizes and offsets fitting an `int`), `readImage` succeeds, takes
`dataOffset` from bytes 10-13, `width` from bytes 18-21, `height` from bytes
22-25 and `bitsPerPixel` from bytes 28-29, sets `bytesPerPixel = bitsPerPixel /
8`, returns a buffer of `width * height * bytesPerPixel` bytes, and row
`height - 1 - i` of that buffer is the `width * bytesPerPixel` file bytes at
`dataOffset + i * paddedRowSize`, with `paddedRowSize = 4 * ceil(width/4) *
bytesPerPixel`, the value the code computes. -/
theorem readImage_spec (file : List uchar) (stale : Stale)
    (dataOffset width height bitsPerPixel : Nat)
    (hD : fieldAt file 10 4 dataOffset) (hW : fieldAt file 18 4 width)
    (hH : fieldAt file 22 4 height) (hB : fieldAt file 28 2 bitsPerPixel)
    (hbits : bitsPerPixel < 32768) (hw : width < 16777216)
    (hpad : 4 * ⌈(width : ℚ) / 4⌉₊ * (bitsPerPixel / 8) < 2147483648)
    (hsize : width * height * (bitsPerPixel / 8) < 2147483648)
    (hlen : file.length < 2147483648)
    (hrows : ∀ i, i < height →
      dataOffset + i * (4 * ⌈(width : ℚ) / 4⌉₊ * (bitsPerPixel / 8))
        + width * (bitsPerPixel / 8) ≤ file.length) :
    ∃ img, readImage (some file) stale = some img
      ∧ img.width = width ∧ img.height = height ∧ img.bytesPerPixel = bitsPerPixel / 8
      ∧ img.pixels.length = width * height * (bitsPerPixel / 8)
      ∧ paddedRowSize img.width img.bytesPerPixel
          = ((4 * ⌈(width : ℚ) / 4⌉₊ * (bitsPerPixel / 8) : Nat) : Int)
      ∧ ∀ i, i < height →
          memRow img.pixels (width * (bitsPerPixel / 8)) (height - 1 - i)
            = fread file (dataOffset + i * (4 * ⌈(width : ℚ) / 4⌉₊ * (bitsPerPixel / 8)))
                (width * (bitsPerPixel / 8)) := by
  rw [natCeil_div_four] at hpad ⊢
  simp only [natCeil_div_four] at hrows
  have hP := @paddedRowSize_eq width (bitsPerPixel / 8) hw hpad
  have hT : (paddedRowSize width (bitsPerPixel / 8)).toNat
      = 4 * ((width + 3) / 4) * (bitsPerPixel / 8) := by rw [hP, Int.toNat_ofNat]
  obtain ⟨img, hr, h1, h2, h3, h4, h5⟩ := readImage_rows file stale dataOffset width height
    bitsPerPixel hD hW hH hB hbits hsize (by rw [hP]; omega) hlen
    (fun i hi => by rw [hT]; exact hrows i hi)
  refine ⟨img, hr, h1, h2, h3, h4, by rw [h1, h3]; exact hP, fun i hi => ?_⟩
  have := h5 i hi
  rw [hT] at this
  exact this

theorem readImage_spec_witness :
    (fieldAt (writeImage (List.replicate 15 (byte 1) ++ List.replicate 15 (byte 2))
        (fun _ => 9) 5 2 3) 10 4 54
      ∧ fieldAt (writeImage (List.replicate 15 (byte 1) ++ List.replicate 15 (byte 2))
        (fun _ => 9) 5 2 3) 18 4 5
      ∧ fieldAt (writeImage (List.replicate 15 (byte 1) ++ List.replicate 15 (byte 2))
        (fun _ => 9) 5 2 3) 22 4 2
      ∧ fieldAt (writeImage (List.replicate 15 (byte 1) ++ List.replicate 15 (byte 2))
        (fun _ => 9) 5 2 3) 28 2 24
      ∧ 24 < 32768 ∧ 5 < 16777216
      ∧ 4 * ⌈((5 : Nat) : ℚ) / 4⌉₊ * (24 / 8) < 2147483648
      ∧ 5 * 2 * (24 / 8) < 2147483648
      ∧ (writeImage (List.replicate 15 (byte 1) ++ List.replicate 15 (byte 2))
          (fun _ => 9) 5 2 3).length < 2147483648
      ∧ ∀ i, i < 2 → 54 + i * (4 * ⌈((5 : Nat) : ℚ) / 4⌉₊ * (24 / 8)) + 5 * (24 / 8)
          ≤ (writeImage (List.replicate 15 (byte 1) ++ List.replicate 15 (byte 2))
              (fun _ => 9) 5 2 3).length)
    ∧ ∃ img, readImage (some (writeImage (List.replicate 15 (byte 1)
          ++ List.replicate 15 (byte 2)) (fun _ => 9) 5 2 3)) ⟨0, 0, 0, 0, fun _ => 0⟩
          = some img
        ∧ img.width = 5 ∧ img.height = 2 ∧ img.bytesPerPixel = 24 / 8
        ∧ img.pixels.length = 5 * 2 * (24 / 8)
        ∧ paddedRowSize img.width img.bytesPerPixel
            = ((4 * ⌈((5 : Nat) : ℚ) / 4⌉₊ * (24 / 8) : Nat) : Int)
        ∧ ∀ i, i < 2 →
            memRow img.pixels (5 * (24 / 8)) (2 - 1 - i)
              = fread (writeImage (List.replicate 15 (byte 1) ++ List.replicate 15 (byte 2))
                  (fun _ => 9) 5 2 3)
                  (54 + i * (4 * ⌈((5 : Nat) : ℚ) / 4⌉₊ * (24 / 8))) (5 * (24 / 8)) :=
  have hp : 4 * ⌈((5 : Nat) : ℚ) / 4⌉₊ * (24 / 8) < 2147483648 := by
    rw [natCeil_div_four]; decide
  have hr : ∀ i, i < 2 → 54 + i * (4 * ⌈((5 : Nat) : ℚ) / 4⌉₊ * (24 / 8)) + 5 * (24 / 8)
      ≤ (writeImage (List.replicate 15 (byte 1) ++ List.replicate 15 (byte 2))
          (fun _ => 9) 5 2 3).length := by
    rw [natCeil_div_four]; decide
  ⟨⟨by decide, by decide, by decide, by decide, by decide, by decide, hp, by decide, by decide,
      hr⟩,
    readImage_spec (writeImage (List.replicate 15 (byte 1) ++ List.replicate 15 (byte 2))
      (fun _ => 9) 5 2 3) ⟨0, 0, 0, 0, fun _ => 0⟩ 54 5 2 24 (by decide) (by decide)
      (by decide) (by decide) (by decide) (by decide) hp (by decide) (by decide) hr⟩

/-- C9. `rotateRight` is not the clockwise quarter turn: there is a square
image of side `n` and a position `(i, j)` whose pixel after `rotateRight` is not
the input pixel at `(n - 1 - j, i)`. The 2x2 image `1 2 / 3 4` becomes `3 1 /
2 4`, and the pixel at `(1, 0)` is 2, where the quarter turn has 4. -/
theorem rotateRight_not_rotation :
    ∃ (n bytesPerPixel : Nat) (pixels : List uchar) (i j : Nat),
      pixels.length = n * n * bytesPerPixel ∧ 1 ≤ bytesPerPixel ∧ i < n ∧ j < n
      ∧ pixelAt (rotateRight pixels n n bytesPerPixel) n bytesPerPixel i j
          ≠ pixelAt pixels n bytesPerPixel (n - 1 - j) i :=
  ⟨2, 1, [byte 1, byte 2, byte 3, byte 4], 1, 0, by decide⟩

/-- C10. For a buffer of `width * height * bytesPerPixel` bytes (a size that
fits an `int`), every byte offset `rotateRight` reads or writes in its three
passes lies in `[0, width * height * bytesPerPixel)`; for a height of 50 or less
pass 3, which starts at the literal row 50, touches nothing. -/
theorem rotateRight_in_bounds (pixels : List uchar) (width height bytesPerPixel : Nat)
    (hsize : width * height * bytesPerPixel < 2147483648)
    (hlen : pixels.length = width * height * bytesPerPixel) :
    (∀ a, a ∈ rotateRightAccesses width height bytesPerPixel →
        0 ≤ a ∧ a < ((width * height * bytesPerPixel : Nat) : Int) ∧ a.toNat < pixels.length)
    ∧ pass3 width (min height 50) bytesPerPixel = [] := by
  constructor
  · intro a ha
    unfold rotateRightAccesses at ha
    rw [List.mem_flatMap] at ha
    obtain ⟨ab, hab, ha⟩ := ha
    have hb : (0 ≤ ab.1 ∧ ab.1 < ((width * height * bytesPerPixel : Nat) : Int))
        ∧ (0 ≤ ab.2 ∧ ab.2 < ((width * height * bytesPerPixel : Nat) : Int)) := by
      unfold rotateRightSwaps at hab
      rw [List.mem_append, List.mem_append] at hab
      rcases hab with (h1 | h2) | h3
      · obtain ⟨i, j, k, -, -, -, e, b1, b2⟩ :=
          mem_mirrorRows (h := height) (fun i hi => by
            rw [List.mem_range] at hi; omega) hsize h1
        rw [e]
        exact ⟨⟨by omega, by omega⟩, ⟨by omega, by omega⟩⟩
      · obtain ⟨i, j, -, -, e, b1, b2⟩ := mem_pass2 hsize h2
        rw [e]
        exact ⟨⟨by omega, by omega⟩, ⟨by omega, by omega⟩⟩
      · obtain ⟨i, j, k, -, -, -, e, b1, b2⟩ :=
          mem_mirrorRows (h := height) (fun i hi => by
            rw [List.mem_range'] at hi
            obtain ⟨t, ht, rfl⟩ := hi
            omega) hsize h3
        rw [e]
        exact ⟨⟨by omega, by omega⟩, ⟨by omega, by omega⟩⟩
    rw [hlen]
    simp only [List.mem_cons, List.mem_singleton, List.not_mem_nil, or_false] at ha
    rcases ha with rfl | rfl
    · exact ⟨hb.1.1, hb.1.2, by omega⟩
    · exact ⟨hb.2.1, hb.2.2, by omega⟩
  · unfold pass3 mirrorRows
    have : min height 50 - 50 = 0 := by omega
    rw [this]
    rfl

theorem rotateRight_in_bounds_witness :
    (3 * 3 * 1 < 2147483648 ∧ (List.replicate 9 (byte 1)).length = 3 * 3 * 1)
    ∧ ∀ a, a ∈ rotateRightAccesses 3 3 1 →
        0 ≤ a ∧ a < ((3 * 3 * 1 : Nat) : Int) ∧ a.toNat < (List.replicate 9 (byte 1)).length :=
  ⟨⟨by decide, by decide⟩,
    (rotateRight_in_bounds (List.replicate 9 (byte 1)) 3 3 1 (by decide) (by decide)).1⟩

/-! ## Further properties of the codec and of the transform -/

/-- C11, as stated, fails: a 58-byte bitmap file whose header has `bitsPerPixel
= 1` (width 8, height 1) is read with success; `readImage` returns width 8,
height 1, `bytesPerPixel = 0` and an empty pixel buffer. -/
theorem readImage_one_bit_counterexample :
    fieldAt ([byte 66, byte 77] ++ le 4 58 ++ le 4 0 ++ le 4 54 ++ le 4 40 ++ le 4 8 ++ le 4 1
        ++ le 2 1 ++ le 2 1 ++ List.replicate 24 (byte 0) ++ [byte 170, byte 0, byte 0, byte 0])
      28 2 1
    ∧ 1 % 8 ≠ 0
    ∧ readImage (some ([byte 66, byte 77] ++ le 4 58 ++ le 4 0 ++ le 4 54 ++ le 4 40 ++ le 4 8
        ++ le 4 1 ++ le 2 1 ++ le 2 1 ++ List.replicate 24 (byte 0)
        ++ [byte 170, byte 0, byte 0, byte 0])) ⟨0, 0, 0, 0, fun _ => 0⟩
      = some ⟨8, 1, 0, []⟩ := by
  decide

/-- C11, amended. `readImage` has no format check and no `UnsupportedFormat`
failure: for a file that holds its header, with a `bitsPerPixel` that is not a
multiple of 8 (non-negative, for example 1), a width below `2^24` and row sizes
and file offsets that fit an `int`, it returns success, with `bytesPerPixel =
bitsPerPixel / 8` rounded down (so `bytesPerPixel * 8` is not `bitsPerPixel`)
and a pixel buffer of `width * height * bytesPerPixel` bytes. -/
theorem readImage_no_format_check (file : List uchar) (stale : Stale)
    (dataOffset width height bitsPerPixel : Nat)
    (hD : fieldAt file 10 4 dataOffset) (hW : fieldAt file 18 4 width)
    (hH : fieldAt file 22 4 height) (hB : fieldAt file 28 2 bitsPerPixel)
    (hbits : bitsPerPixel < 32768) (hodd : bitsPerPixel % 8 ≠ 0)
    (hw : width < 16777216)
    (hpad : 4 * ⌈(width : ℚ) / 4⌉₊ * (bitsPerPixel / 8) < 2147483648)
    (hoff : dataOffset + height * (4 * ⌈(width : ℚ) / 4⌉₊ * (bitsPerPixel / 8))
      < 2147483648) :
    ∃ img, readImage (some file) stale = some img
      ∧ img.width = width ∧ img.height = height
      ∧ img.bytesPerPixel = bitsPerPixel / 8
      ∧ img.bytesPerPixel * 8 ≠ bitsPerPixel
      ∧ img.pixels.length = width * height * (bitsPerPixel / 8) := by
  rw [natCeil_div_four] at hpad hoff
  have hH32 : height < 4294967296 := by have := hH.2; omega
  have hUP : width * (bitsPerPixel / 8) ≤ 4 * ((width + 3) / 4) * (bitsPerPixel / 8) :=
    Nat.mul_le_mul_right _ (by omega)
  have hHUP : height * (width * (bitsPerPixel / 8))
      ≤ height * (4 * ((width + 3) / 4) * (bitsPerPixel / 8)) := Nat.mul_le_mul_left _ hUP
  have hB8 : int16ToUInt32 bitsPerPixel / 8 = bitsPerPixel / 8 := by
    rw [int16ToUInt32_eq hbits]
  obtain ⟨px, hpx, hl, -⟩ := readImage_core file stale (freadVar_four stale.dataOffset hD)
    (freadVar_four stale.width hW) (freadVar_four stale.height hH)
    (freadVar_two stale.bitsPerPixel hB)
    (show unpaddedRowSize width (int16ToUInt32 bitsPerPixel / 8)
        = ((width * (bitsPerPixel / 8) : Nat) : Int) by
      rw [hB8]; exact unpaddedRowSize_eq (by omega))
    (show paddedRowSize width (int16ToUInt32 bitsPerPixel / 8)
        = ((4 * ((width + 3) / 4) * (bitsPerPixel / 8) : Nat) : Int) by
      rw [hB8]; exact paddedRowSize_eq hw hpad)
    hH32 (by omega)
    (fun i hi => by
      have : i * (4 * ((width + 3) / 4) * (bitsPerPixel / 8))
          ≤ height * (4 * ((width + 3) / 4) * (bitsPerPixel / 8)) :=
        Nat.mul_le_mul_right _ (by omega)
      omega)
  rw [hB8] at hpx
  refine ⟨_, hpx, rfl, rfl, rfl, ?_, ?_⟩
  · show bitsPerPixel / 8 * 8 ≠ bitsPerPixel
    omega
  · show px.length = width * height * (bitsPerPixel / 8)
    rw [hl]; ring

theorem readImage_no_format_check_witness :
    (fieldAt ([byte 66, byte 77] ++ le 4 62 ++ le 4 0 ++ le 4 54 ++ le 4 40 ++ le 4 3 ++ le 4 2
        ++ le 2 1 ++ le 2 12 ++ List.replicate 24 (byte 0)
        ++ [byte 1, byte 2, byte 3, byte 0, byte 4, byte 5, byte 6, byte 0]) 10 4 54
      ∧ fieldAt ([byte 66, byte 77] ++ le 4 62 ++ le 4 0 ++ le 4 54 ++ le 4 40 ++ le 4 3 ++ le 4 2
        ++ le 2 1 ++ le 2 12 ++ List.replicate 24 (byte 0)
        ++ [byte 1, byte 2, byte 3, byte 0, byte 4, byte 5, byte 6, byte 0]) 18 4 3
      ∧ fieldAt ([byte 66, byte 77] ++ le 4 62 ++ le 4 0 ++ le 4 54 ++ le 4 40 ++ le 4 3 ++ le 4 2
        ++ le 2 1 ++ le 2 12 ++ List.replicate 24 (byte 0)
        ++ [byte 1, byte 2, byte 3, byte 0, byte 4, byte 5, byte 6, byte 0]) 22 4 2
      ∧ fieldAt ([byte 66, byte 77] ++ le 4 62 ++ le 4 0 ++ le 4 54 ++ le 4 40 ++ le 4 3 ++ le 4 2
        ++ le 2 1 ++ le 2 12 ++ List.replicate 24 (byte 0)
        ++ [byte 1, byte 2, byte 3, byte 0, byte 4, byte 5, byte 6, byte 0]) 28 2 12
      ∧ 12 < 32768 ∧ 12 % 8 ≠ 0 ∧ 3 < 16777216
      ∧ 4 * ⌈((3 : Nat) : ℚ) / 4⌉₊ * (12 / 8) < 2147483648
      ∧ 54 + 2 * (4 * ⌈((3 : Nat) : ℚ) / 4⌉₊ * (12 / 8)) < 2147483648)
    ∧ ∃ img, readImage (some ([byte 66, byte 77] ++ le 4 62 ++ le 4 0 ++ le 4 54 ++ le 4 40 ++ le 4 3 ++ le 4 2
        ++ le 2 1 ++ le 2 12 ++ List.replicate 24 (byte 0)
        ++ [byte 1, byte 2, byte 3, byte 0, byte 4, byte 5, byte 6, byte 0]))
          ⟨0, 0, 0, 0, fun _ => 0⟩ = some img
        ∧ img.width = 3 ∧ img.height = 2
        ∧ img.bytesPerPixel = 12 / 8
        ∧ img.bytesPerPixel * 8 ≠ 12
        ∧ img.pixels.length = 3 * 2 * (12 / 8) :=
  have hp : 4 * ⌈((3 : Nat) : ℚ) / 4⌉₊ * (12 / 8) < 2147483648 := by
    rw [natCeil_div_four]; decide
  have ho : 54 + 2 * (4 * ⌈((3 : Nat) : ℚ) / 4⌉₊ * (12 / 8)) < 2147483648 := by
    rw [natCeil_div_four]; decide
  ⟨⟨by decide, by decide, by decide, by decide, by decide, by decide, by decide, hp, ho⟩,
    readImage_no_format_check ([byte 66, byte 77] ++ le 4 62 ++ le 4 0 ++ le 4 54 ++ le 4 40 ++ le 4 3 ++ le 4 2
        ++ le 2 1 ++ le 2 12 ++ List.replicate 24 (byte 0)
        ++ [byte 1, byte 2, byte 3, byte 0, byte 4, byte 5, byte 6, byte 0])
      ⟨0, 0, 0, 0, fun _ => 0⟩ 54 3 2 12 (by decide)
      (by decide) (by decide) (by decide) (by decide) (by decide) (by decide) hp ho⟩

/-- C12. Applying `rotateRight` twice is not the identity: the 2x2 image
`1 2 / 3 4` with one byte per pixel becomes `3 1 / 2 4` and then `2 3 / 1 4`. -/
theorem rotateRight_twice_not_identity :
    ∃ (width height bytesPerPixel : Nat) (pixels : List uchar),
      pixels.length = width * height * bytesPerPixel
      ∧ rotateRight (rotateRight pixels width height bytesPerPixel) width height bytesPerPixel
          ≠ pixels :=
  ⟨2, 2, 1, [byte 1, byte 2, byte 3, byte 4], by decide⟩

/-- C13. For a buffer of height 1 or of width 1 (its size fitting an `int`),
every offset `rotateRight` touches is inside the buffer. For height 1 the three
passes perform no swap at all and the buffer comes back unchanged; for width 1
passes 1 and 3 perform no swap. -/
theorem rotateRight_degenerate (pixels : List uchar) (width height bytesPerPixel : Nat)
    (hdim : height = 1 ∨ width = 1)
    (hsize : width * height * bytesPerPixel < 2147483648)
    (hlen : pixels.length = width * height * bytesPerPixel) :
    (∀ a, a ∈ rotateRightAccesses width height bytesPerPixel →
        0 ≤ a ∧ a.toNat < pixels.length)
    ∧ (pass1 width 1 bytesPerPixel = [] ∧ pass2 width 1 bytesPerPixel = []
        ∧ pass3 width 1 bytesPerPixel = [])
    ∧ (∀ px : List uchar, rotateRight px width 1 bytesPerPixel = px)
    ∧ (pass1 1 height bytesPerPixel = [] ∧ pass3 1 height bytesPerPixel = []) := by
  have _ := hdim
  refine ⟨?_, ⟨rfl, rfl, rfl⟩, ?_, ⟨mirrorRows_width_one _ _, mirrorRows_width_one _ _⟩⟩
  · intro a ha
    unfold rotateRightAccesses at ha
    rw [List.mem_flatMap] at ha
    obtain ⟨ab, hab, ha⟩ := ha
    obtain ⟨x, y, e, hx, hy⟩ := rotateRightSwaps_bounds hsize hab
    rw [e] at ha
    simp only [List.mem_cons, List.mem_singleton, List.not_mem_nil, or_false] at ha
    rcases ha with rfl | rfl
    · exact ⟨by omega, by omega⟩
    · exact ⟨by omega, by omega⟩
  · intro px
    unfold rotateRight
    rw [rotateRightSwaps_height_one]
    rfl

theorem rotateRight_degenerate_witness :
    ((3 = 1 ∨ 1 = 1) ∧ 1 * 3 * 2 < 2147483648 ∧ (List.replicate 6 (byte 5)).length = 1 * 3 * 2)
    ∧ ∀ a, a ∈ rotateRightAccesses 1 3 2 →
        0 ≤ a ∧ a.toNat < (List.replicate 6 (byte 5)).length :=
  ⟨⟨by decide, by decide, by decide⟩,
    (rotateRight_degenerate (List.replicate 6 (byte 5)) 1 3 2 (by decide) (by decide)
      (by decide)).1⟩

/-- C14. The buffer `readImage` returns has exactly `width * height *
bytesPerPixel` bytes (a size that fits an `int`), so that row `i` is the byte
range from `i * width * bytesPerPixel` up to `(i + 1) * width * bytesPerPixel`,
which lies inside the buffer and has `width * bytesPerPixel` bytes; and
`rotateRight` returns a buffer of the same length. -/
theorem imageBuffer_invariant (file : List uchar) (stale : Stale)
    (width height bitsPerPixel : Nat)
    (hW : fieldAt file 18 4 width) (hH : fieldAt file 22 4 height)
    (hB : fieldAt file 28 2 bitsPerPixel) (hbits : bitsPerPixel < 32768)
    (hsize : width * height * (bitsPerPixel / 8) < 2147483648) :
    ∃ img, readImage (some file) stale = some img
      ∧ img.width = width ∧ img.height = height ∧ img.bytesPerPixel = bitsPerPixel / 8
      ∧ img.pixels.length = img.width * img.height * img.bytesPerPixel
      ∧ (∀ i, i < img.height →
          (i + 1) * (img.width * img.bytesPerPixel) ≤ img.pixels.length
          ∧ (memRow img.pixels (img.width * img.bytesPerPixel) i).length
              = img.width * img.bytesPerPixel)
      ∧ (rotateRight img.pixels img.width img.height img.bytesPerPixel).length
          = img.pixels.length := by
  refine ⟨_, readImage_some file stale, ?_, ?_, ?_, ?_, ?_, foldl_swapBytes_length _ _⟩
  · exact freadVar_four stale.width hW
  · exact freadVar_four stale.height hH
  · simp only [freadVar_two stale.bitsPerPixel hB, int16ToUInt32_eq hbits]
  · simp only [freadVar_four stale.width hW, freadVar_four stale.height hH,
      freadVar_two stale.bitsPerPixel hB, int16ToUInt32_eq hbits]
    rw [foldl_readRow_length, List.length_map, List.length_range, totalSize_eq hsize]
  · simp only [freadVar_four stale.width hW, freadVar_four stale.height hH,
      freadVar_two stale.bitsPerPixel hB, int16ToUInt32_eq hbits]
    intro i hi
    have hl : ((List.range height).foldl
        (readRow file (freadVar file 10 4 stale.dataOffset) height
          (paddedRowSize width (bitsPerPixel / 8)) (unpaddedRowSize width (bitsPerPixel / 8)))
        ((List.range (toInt (umul (ofInt (unpaddedRowSize width (bitsPerPixel / 8)))
          height)).toNat).map stale.heap)).length = width * height * (bitsPerPixel / 8) := by
      rw [foldl_readRow_length, List.length_map, List.length_range, totalSize_eq hsize]
    have e : width * height * (bitsPerPixel / 8) = height * (width * (bitsPerPixel / 8)) := by
      ring
    have h1 : (i + 1) * (width * (bitsPerPixel / 8)) ≤ height * (width * (bitsPerPixel / 8)) :=
      Nat.mul_le_mul_right _ hi
    refine ⟨by rw [hl, e]; exact h1, ?_⟩
    unfold memRow
    rw [List.length_take, List.length_drop, hl, e]
    rw [Nat.add_mul] at h1
    omega

theorem imageBuffer_invariant_witness :
    (fieldAt (writeImage [byte 1, byte 2, byte 3] (fun _ => 0) 1 1 3) 18 4 1
      ∧ fieldAt (writeImage [byte 1, byte 2, byte 3] (fun _ => 0) 1 1 3) 22 4 1
      ∧ fieldAt (writeImage [byte 1, byte 2, byte 3] (fun _ => 0) 1 1 3) 28 2 24
      ∧ 24 < 32768 ∧ 1 * 1 * (24 / 8) < 2147483648)
    ∧ ∃ img, readImage (some (writeImage [byte 1, byte 2, byte 3] (fun _ => 0) 1 1 3))
          ⟨0, 0, 0, 0, fun _ => 0⟩ = some img
        ∧ img.width = 1 ∧ img.height = 1 ∧ img.bytesPerPixel = 24 / 8
        ∧ img.pixels.length = img.width * img.height * img.bytesPerPixel
        ∧ (∀ i, i < img.height →
            (i + 1) * (img.width * img.bytesPerPixel) ≤ img.pixels.length
            ∧ (memRow img.pixels (img.width * img.bytesPerPixel) i).length
                = img.width * img.bytesPerPixel)
        ∧ (rotateRight img.pixels img.width img.height img.bytesPerPixel).length
            = img.pixels.length :=
  ⟨by decide,
    imageBuffer_invariant (writeImage [byte 1, byte 2, byte 3] (fun _ => 0) 1 1 3)
      ⟨0, 0, 0, 0, fun _ => 0⟩ 1 1 24 (by decide) (by decide) (by decide) (by decide)
      (by decide)⟩

/-- C15. Pass 3 of `rotateRight` starts at the literal row 50 whatever the
height. For a height of 50 or less it performs no swap, and `rotateRight` is
pass 1 followed by pass 2. For a larger height it reverses the pixel order of
each row from 50 to `height - 1` (pixel `j` becomes the pixel `width - 1 - j` of
the buffer pass 2 left, its bytes in order) and leaves rows 0 to 49 as pass 2
left them. -/
theorem pass3_from_row_50 (pixels : List uchar) (width height bytesPerPixel : Nat)
    (hsize : width * height * bytesPerPixel < 2147483648)
    (hlen : pixels.length = width * height * bytesPerPixel) :
    rotateRight pixels width height bytesPerPixel
        = (pass3 width height bytesPerPixel).foldl swapBytes
            ((pass2 width height bytesPerPixel).foldl swapBytes
              ((pass1 width height bytesPerPixel).foldl swapBytes pixels))
    ∧ (height ≤ 50 → pass3 width height bytesPerPixel = []
        ∧ rotateRight pixels width height bytesPerPixel
            = (pass2 width height bytesPerPixel).foldl swapBytes
                ((pass1 width height bytesPerPixel).foldl swapBytes pixels))
    ∧ (∀ i j k, 50 ≤ i → i < height → j < width → k < bytesPerPixel →
        (rotateRight pixels width height bytesPerPixel)[(i * width + j) * bytesPerPixel + k]?
          = ((pass2 width height bytesPerPixel).foldl swapBytes
              ((pass1 width height bytesPerPixel).foldl swapBytes pixels))[
                (i * width + (width - 1 - j)) * bytesPerPixel + k]?)
    ∧ (∀ i j, 50 ≤ i → i < height → j < width →
        pixelAt (rotateRight pixels width height bytesPerPixel) width bytesPerPixel i j
          = pixelAt ((pass2 width height bytesPerPixel).foldl swapBytes
              ((pass1 width height bytesPerPixel).foldl swapBytes pixels))
              width bytesPerPixel i (width - 1 - j))
    ∧ (∀ i, i < 50 → i < height →
        memRow (rotateRight pixels width height bytesPerPixel) (width * bytesPerPixel) i
          = memRow ((pass2 width height bytesPerPixel).foldl swapBytes
              ((pass1 width height bytesPerPixel).foldl swapBytes pixels))
              (width * bytesPerPixel) i) := by
  have hp := rotateRight_passes pixels width height bytesPerPixel
  have hl : ((pass2 width height bytesPerPixel).foldl swapBytes
      ((pass1 width height bytesPerPixel).foldl swapBytes pixels)).length
      = width * height * bytesPerPixel := by
    rw [foldl_swapBytes_length, foldl_swapBytes_length, hlen]
  have hmem : ∀ i, i ∈ List.range' 50 (height - 50) ↔ 50 ≤ i ∧ i < height := by
    intro i
    rw [List.mem_range']
    constructor
    · rintro ⟨t, ht, rfl⟩; omega
    · rintro ⟨h1, h2⟩; exact ⟨i - 50, by omega, by omega⟩
  obtain ⟨m1, m2, m3⟩ := @mirrorRows_image (List.range' 50 (height - 50)) width height
    bytesPerPixel
    ((pass2 width height bytesPerPixel).foldl swapBytes
      ((pass1 width height bytesPerPixel).foldl swapBytes pixels))
    (fun i hi => ((hmem i).1 hi).2) (List.pairwise_lt_range' 50 (height - 50)) hsize hl
  refine ⟨hp, ?_, ?_, ?_, ?_⟩
  · intro hh
    have h3 := pass3_eq_nil width bytesPerPixel hh
    refine ⟨h3, ?_⟩
    rw [hp, h3]
    rfl
  · intro i j k h50 hi hj hk
    rw [hp]
    exact m1 i j k ((hmem i).2 ⟨h50, hi⟩) hj hk
  · intro i j h50 hi hj
    rw [hp]
    exact m2 i j ((hmem i).2 ⟨h50, hi⟩) hj
  · intro i h50 _
    rw [hp]
    exact m3 i (fun hm => by have := (hmem i).1 hm; omega)

theorem pass3_from_row_50_witness :
    (2 * 51 * 1 < 2147483648 ∧ ((List.range 102).map byte).length = 2 * 51 * 1)
    ∧ ∀ i j, 50 ≤ i → i < 51 → j < 2 →
        pixelAt (rotateRight ((List.range 102).map byte) 2 51 1) 2 1 i j
          = pixelAt ((pass2 2 51 1).foldl swapBytes
              ((pass1 2 51 1).foldl swapBytes ((List.range 102).map byte))) 2 1 i (2 - 1 - j) :=
  ⟨⟨by decide, by decide⟩,
    (pass3_from_row_50 ((List.range 102).map byte) 2 51 1 (by decide) (by decide)).2.2.2.1⟩

/-- C16. `rotateRight` is its three passes in order, and pass 2 works on raw
bytes: starting from the buffer pass 1 left, it exchanges byte `c` of row `i` with byte `c` of row
`height - 1 - i` for every `i < height / 2` and `c < (width * bytesPerPixel) /
2`; the bytes in columns from `(width * bytesPerPixel) / 2` on, and the middle
row of an odd height, are unchanged. When the boundary falls inside a pixel only
part of it is exchanged: for one 3-byte pixel per row and two rows, byte 0 of
the pixels is exchanged and bytes 1 and 2 are not. -/
theorem pass2_exchanges_bytes (pixels : List uchar) (width height bytesPerPixel : Nat)
    (hsize : width * height * bytesPerPixel < 2147483648)
    (hlen : pixels.length = width * height * bytesPerPixel) :
    rotateRight pixels width height bytesPerPixel
        = (pass3 width height bytesPerPixel).foldl swapBytes
            ((pass2 width height bytesPerPixel).foldl swapBytes
              ((pass1 width height bytesPerPixel).foldl swapBytes pixels))
    ∧ (∀ i c, i < height / 2 → c < width * bytesPerPixel / 2 →
        ((pass2 width height bytesPerPixel).foldl swapBytes
            ((pass1 width height bytesPerPixel).foldl swapBytes pixels))[
              i * (width * bytesPerPixel) + c]?
          = ((pass1 width height bytesPerPixel).foldl swapBytes pixels)[
              (height - 1 - i) * (width * bytesPerPixel) + c]?
        ∧ ((pass2 width height bytesPerPixel).foldl swapBytes
            ((pass1 width height bytesPerPixel).foldl swapBytes pixels))[
              (height - 1 - i) * (width * bytesPerPixel) + c]?
          = ((pass1 width height bytesPerPixel).foldl swapBytes pixels)[
              i * (width * bytesPerPixel) + c]?)
    ∧ (∀ i c, i < height → c < width * bytesPerPixel →
        (width * bytesPerPixel / 2 ≤ c ∨ 2 * i + 1 = height) →
        ((pass2 width height bytesPerPixel).foldl swapBytes
            ((pass1 width height bytesPerPixel).foldl swapBytes pixels))[
              i * (width * bytesPerPixel) + c]?
          = ((pass1 width height bytesPerPixel).foldl swapBytes pixels)[
              i * (width * bytesPerPixel) + c]?)
    ∧ (1 * 3 / 2 % 3 ≠ 0
        ∧ (pass2 1 2 3).foldl swapBytes
            ((pass1 1 2 3).foldl swapBytes [byte 1, byte 2, byte 3, byte 4, byte 5, byte 6])
          = [byte 4, byte 2, byte 3, byte 1, byte 5, byte 6]) := by
  have hl : ((pass1 width height bytesPerPixel).foldl swapBytes pixels).length
      = width * height * bytesPerPixel := by rw [foldl_swapBytes_length, hlen]
  obtain ⟨s1, s2⟩ := pass2_spec ((pass1 width height bytesPerPixel).foldl swapBytes pixels)
    hsize hl
  exact ⟨rotateRight_passes pixels width height bytesPerPixel, s1, s2, by decide⟩

theorem pass2_exchanges_bytes_witness :
    (2 * 2 * 1 < 2147483648 ∧ [byte 1, byte 2, byte 3, byte 4].length = 2 * 2 * 1)
    ∧ ∀ i c, i < 2 / 2 → c < 2 * 1 / 2 →
        ((pass2 2 2 1).foldl swapBytes
            ((pass1 2 2 1).foldl swapBytes [byte 1, byte 2, byte 3, byte 4]))[i * (2 * 1) + c]?
          = ((pass1 2 2 1).foldl swapBytes [byte 1, byte 2, byte 3, byte 4])[
              (2 - 1 - i) * (2 * 1) + c]?
        ∧ ((pass2 2 2 1).foldl swapBytes
            ((pass1 2 2 1).foldl swapBytes [byte 1, byte 2, byte 3, byte 4]))[
              (2 - 1 - i) * (2 * 1) + c]?
          = ((pass1 2 2 1).foldl swapBytes [byte 1, byte 2, byte 3, byte 4])[i * (2 * 1) + c]? :=
  ⟨⟨by decide, by decide⟩,
    (pass2_exchanges_bytes [byte 1, byte 2, byte 3, byte 4] 2 2 1 (by decide) (by decide)).2.1⟩

/-- C17. Pass 1 of `rotateRight` mirrors the top half at pixel granularity: in
the buffer after the pass, for every row `i < height / 2`, column `j < width`
and byte `k < bytesPerPixel`, byte `k` of pixel `(i, j)` is byte `k` of the
original pixel `(i, width - 1 - j)`; the middle pixel of an odd width stays in
place; every row from `height / 2` on is unchanged. -/
theorem pass1_mirrors_top_half (pixels : List uchar) (width height bytesPerPixel : Nat)
    (hsize : width * height * bytesPerPixel < 2147483648)
    (hlen : pixels.length = width * height * bytesPerPixel) :
    rotateRight pixels width height bytesPerPixel
        = (pass3 width height bytesPerPixel).foldl swapBytes
            ((pass2 width height bytesPerPixel).foldl swapBytes
              ((pass1 width height bytesPerPixel).foldl swapBytes pixels))
    ∧ (∀ i j k, i < height / 2 → j < width → k < bytesPerPixel →
        ((pass1 width height bytesPerPixel).foldl swapBytes pixels)[
            (i * width + j) * bytesPerPixel + k]?
          = pixels[(i * width + (width - 1 - j)) * bytesPerPixel + k]?)
    ∧ (∀ i j, i < height / 2 → j < width →
        pixelAt ((pass1 width height bytesPerPixel).foldl swapBytes pixels)
            width bytesPerPixel i j
          = pixelAt pixels width bytesPerPixel i (width - 1 - j))
    ∧ (∀ i j, i < height / 2 → 2 * j + 1 = width →
        pixelAt ((pass1 width height bytesPerPixel).foldl swapBytes pixels)
            width bytesPerPixel i j
          = pixelAt pixels width bytesPerPixel i j)
    ∧ (∀ i, height / 2 ≤ i → i < height →
        memRow ((pass1 width height bytesPerPixel).foldl swapBytes pixels)
            (width * bytesPerPixel) i
          = memRow pixels (width * bytesPerPixel) i) := by
  obtain ⟨m1, m2, m3⟩ := @mirrorRows_image (List.range (height / 2)) width height
    bytesPerPixel pixels (fun i hi => by rw [List.mem_range] at hi; omega)
    (List.pairwise_lt_range _) hsize hlen
  refine ⟨rotateRight_passes pixels width height bytesPerPixel, ?_, ?_, ?_, ?_⟩
  · intro i j k hi hj hk
    exact m1 i j k (List.mem_range.2 hi) hj hk
  · intro i j hi hj
    exact m2 i j (List.mem_range.2 hi) hj
  · intro i j hi hj
    have := m2 i j (List.mem_range.2 hi) (by omega)
    have e : width - 1 - j = j := by omega
    rw [e] at this
    exact this
  · intro i hi _
    exact m3 i (fun hm => by rw [List.mem_range] at hm; omega)

theorem pass1_mirrors_top_half_witness :
    (3 * 2 * 1 < 2147483648
      ∧ [byte 1, byte 2, byte 3, byte 4, byte 5, byte 6].length = 3 * 2 * 1)
    ∧ ∀ i j, i < 2 / 2 → j < 3 →
        pixelAt ((pass1 3 2 1).foldl swapBytes [byte 1, byte 2, byte 3, byte 4, byte 5, byte 6])
            3 1 i j
          = pixelAt [byte 1, byte 2, byte 3, byte 4, byte 5, byte 6] 3 1 i (3 - 1 - j) :=
  ⟨⟨by decide, by decide⟩,
    (pass1_mirrors_top_half [byte 1, byte 2, byte 3, byte 4, byte 5, byte 6] 3 2 1 (by decide)
      (by decide)).2.2.1⟩

/-- C18, as stated, fails: width 16777217 is not a multiple of 4, yet with
height 1 and one byte per pixel `writeImage` reads no byte outside the buffer,
because the padded row size it computes, 16777216, is below the row size. -/
theorem writeImage_reads_counterexample :
    (1 ≤ 1 ∧ 1 ≤ 1 ∧ ¬ (4 ∣ 16777217))
    ∧ ¬ ∃ a, a ∈ writeImageReads 16777217 1 1
        ∧ ¬ (0 ≤ a ∧ a < ((16777217 * 1 * 1 : Nat) : Int)) := by
  refine ⟨⟨by decide, by decide, by decide⟩, ?_⟩
  rintro ⟨a, ha, hout⟩
  apply hout
  unfold writeImageReads at ha
  rw [List.mem_flatMap] at ha
  obtain ⟨i, hi, ha⟩ := ha
  rw [List.mem_range] at hi
  have hi0 : i = 0 := by omega
  subst hi0
  unfold writeRowReads at ha
  rw [List.mem_map] at ha
  obtain ⟨c, hc, rfl⟩ := ha
  rw [List.mem_range] at hc
  have hP : (paddedRowSize 16777217 1).toNat = 16777216 := by decide
  have hoff : toInt (umul (usub (usub 1 1) 0) (ofInt (unpaddedRowSize 16777217 1))) = 0 := by
    decide
  rw [hP] at hc
  rw [hoff]
  omega

/-- C18, amended. For a width below `2^24`, height and bytes per pixel at
least 1 and no 32-bit overflow of the sizes, `writeImage` reads a byte outside
the buffer exactly when the width is not a multiple of 4. The `fwrite` of disk
row `i` reads the `paddedRowSize` offsets from `(height - 1 - i) *
unpaddedRowSize` on; the file holds the header and then the bytes found at
these offsets; and the padding positions of the first disk row are at or past
the end of the buffer. -/
theorem writeImage_reads (width height bytesPerPixel : Nat)
    (hw : width < 16777216) (hh : 1 ≤ height) (hh32 : height < 4294967296)
    (hb : 1 ≤ bytesPerPixel)
    (hpad : 4 * ⌈(width : ℚ) / 4⌉₊ * bytesPerPixel < 2147483648)
    (hsize : width * height * bytesPerPixel < 2147483648) :
    ((∃ a, a ∈ writeImageReads width height bytesPerPixel
        ∧ ¬ (0 ≤ a ∧ a < ((width * height * bytesPerPixel : Nat) : Int))) ↔ ¬ (4 ∣ width))
    ∧ (∀ i, i < height →
        writeRowReads width height bytesPerPixel i
          = (List.range (4 * ⌈(width : ℚ) / 4⌉₊ * bytesPerPixel)).map fun (c : Nat) =>
              (((height - 1 - i) * (width * bytesPerPixel) + c : Nat) : Int))
    ∧ (∀ (pixels : List uchar) (outside : Int → uchar),
        writeImage pixels outside width height bytesPerPixel
          = writeHeader width height bytesPerPixel
              ++ (writeImageReads width height bytesPerPixel).map (peek pixels outside))
    ∧ (∀ c, width * bytesPerPixel ≤ c →
        width * height * bytesPerPixel ≤ (height - 1 - 0) * (width * bytesPerPixel) + c) := by
  rw [natCeil_div_four] at hpad ⊢
  have e : width * height * bytesPerPixel = height * (width * bytesPerPixel) := by ring
  have hrow : ∀ i, i < height →
      writeRowReads width height bytesPerPixel i
        = (List.range (4 * ((width + 3) / 4) * bytesPerPixel)).map fun (c : Nat) =>
            (((height - 1 - i) * (width * bytesPerPixel) + c : Nat) : Int) :=
    fun i hi => writeRowReads_eq hw hpad hsize hh32 hi
  have hlast : (height - 1) * (width * bytesPerPixel) + width * bytesPerPixel
      = height * (width * bytesPerPixel) := by
    have : (height - 1 + 1) * (width * bytesPerPixel) = height * (width * bytesPerPixel) := by
      congr 1; omega
    rw [Nat.add_mul, Nat.one_mul] at this
    exact this
  refine ⟨⟨?_, ?_⟩, hrow, fun pixels outside => writeImage_eq_map_peek pixels outside _ _ _, ?_⟩
  · rintro ⟨a, ha, hout⟩ hdvd
    apply hout
    unfold writeImageReads at ha
    rw [List.mem_flatMap] at ha
    obtain ⟨i, hi, ha⟩ := ha
    rw [List.mem_range] at hi
    rw [hrow i hi, List.mem_map] at ha
    obtain ⟨c, hc, rfl⟩ := ha
    rw [List.mem_range] at hc
    have hP : 4 * ((width + 3) / 4) = width := by omega
    rw [hP] at hc
    have := idx_lt (show height - 1 - i < height by omega) hc
    omega
  · intro hnd
    have hlt : width < 4 * ((width + 3) / 4) := by omega
    have hUP : width * bytesPerPixel < 4 * ((width + 3) / 4) * bytesPerPixel :=
      Nat.mul_lt_mul_of_pos_right hlt (by omega)
    refine ⟨(((height - 1 - 0) * (width * bytesPerPixel) + width * bytesPerPixel : Nat) : Int),
      ?_, ?_⟩
    · unfold writeImageReads
      rw [List.mem_flatMap]
      refine ⟨0, List.mem_range.2 (by omega), ?_⟩
      rw [hrow 0 (by omega), List.mem_map]
      exact ⟨width * bytesPerPixel, List.mem_range.2 hUP, rfl⟩
    · rw [Nat.sub_zero, hlast]
      omega
  · intro c hc
    rw [Nat.sub_zero]
    omega

theorem writeImage_reads_witness :
    (5 < 16777216 ∧ 1 ≤ 2 ∧ 2 < 4294967296 ∧ 1 ≤ 3
      ∧ 4 * ⌈((5 : Nat) : ℚ) / 4⌉₊ * 3 < 2147483648 ∧ 5 * 2 * 3 < 2147483648)
    ∧ ((∃ a, a ∈ writeImageReads 5 2 3 ∧ ¬ (0 ≤ a ∧ a < ((5 * 2 * 3 : Nat) : Int)))
        ↔ ¬ (4 ∣ 5)) :=
  have h : 4 * ⌈((5 : Nat) : ℚ) / 4⌉₊ * 3 < 2147483648 := by
    rw [natCeil_div_four]; decide
  ⟨⟨by decide, by decide, by decide, by decide, h, by decide⟩,
    (writeImage_reads 5 2 3 (by decide) (by decide) (by decide) (by decide) h (by decide)).1⟩

/-- C19. For a buffer of `width * height * bytesPerPixel` bytes (a size that
fits an `int`), every swap of `rotateRight` exchanges two bytes of the buffer,
and the output is a permutation of the input: the same length and the same
multiset of bytes. -/
theorem rotateRight_perm (pixels : List uchar) (width height bytesPerPixel : Nat)
    (hsize : width * height * bytesPerPixel < 2147483648)
    (hlen : pixels.length = width * height * bytesPerPixel) :
    (∀ ab, ab ∈ rotateRightSwaps width height bytesPerPixel →
        0 ≤ ab.1 ∧ ab.1 < pixels.length ∧ 0 ≤ ab.2 ∧ ab.2 < pixels.length)
    ∧ (rotateRight pixels width height bytesPerPixel).Perm pixels
    ∧ (rotateRight pixels width height bytesPerPixel).length = pixels.length
    ∧ ((rotateRight pixels width height bytesPerPixel : List uchar) : Multiset uchar)
        = (pixels : Multiset uchar) := by
  have hp : (rotateRight pixels width height bytesPerPixel).Perm pixels :=
    foldl_swapBytes_perm _ pixels
  refine ⟨fun ab hab => ?_, hp, hp.length_eq, Multiset.coe_eq_coe.2 hp⟩
  obtain ⟨x, y, e, hx, hy⟩ := rotateRightSwaps_bounds hsize hab
  rw [e, hlen]
  exact ⟨by omega, by omega, by omega, by omega⟩

theorem rotateRight_perm_witness :
    (3 * 2 * 1 < 2147483648
      ∧ [byte 1, byte 2, byte 3, byte 4, byte 5, byte 6].length = 3 * 2 * 1)
    ∧ (rotateRight [byte 1, byte 2, byte 3, byte 4, byte 5, byte 6] 3 2 1).Perm
        [byte 1, byte 2, byte 3, byte 4, byte 5, byte 6] :=
  ⟨⟨by decide, by decide⟩,
    (rotateRight_perm [byte 1, byte 2, byte 3, byte 4, byte 5, byte 6] 3 2 1 (by decide)
      (by decide)).2.1⟩

/-- C20. Without 32-bit overflow (the padded row size is a non-negative `int`
and the total fits a `uint32`), `writeImage` writes `54 + paddedRowSize *
height` bytes, and that number is the value of its `fileSize` variable, stored
in bytes 2-5 of the file. -/
theorem writeImage_length_is_fileSize (pixels : List uchar) (outside : Int → uchar)
    (width height bytesPerPixel : Nat)
    (hpad : 0 ≤ paddedRowSize width bytesPerPixel)
    (hfit : 54 + (paddedRowSize width bytesPerPixel).toNat * height < 4294967296) :
    (writeImage pixels outside width height bytesPerPixel).length
        = 54 + (paddedRowSize width bytesPerPixel).toNat * height
    ∧ fileSize width height bytesPerPixel
        = (writeImage pixels outside width height bytesPerPixel).length
    ∧ fieldAt (writeImage pixels outside width height bytesPerPixel) 2 4
        (writeImage pixels outside width height bytesPerPixel).length := by
  have hl := writeImage_length pixels outside width height bytesPerPixel
  rw [Nat.mul_comm] at hl
  have hlt : paddedRowSize width bytesPerPixel < 2147483648 := toInt_lt _
  have hfs : fileSize width height bytesPerPixel
      = 54 + (paddedRowSize width bytesPerPixel).toNat * height := by
    unfold fileSize
    rw [ofInt_of_nonneg hpad (by omega)]
    unfold HEADER_SIZE INFO_HEADER_SIZE
    rw [umul_eq (by omega),
      @uadd_eq ((paddedRowSize width bytesPerPixel).toNat * height) 14 (by omega),
      uadd_eq (by omega)]
    omega
  refine ⟨hl, by rw [hfs, hl], ?_⟩
  rw [hl, ← hfs]
  exact fieldAt_fileSize pixels outside width height bytesPerPixel

theorem writeImage_length_is_fileSize_witness :
    (0 ≤ paddedRowSize 5 3 ∧ 54 + (paddedRowSize 5 3).toNat * 2 < 4294967296)
    ∧ (writeImage (List.replicate 30 (byte 7)) (fun _ => 0) 5 2 3).length
        = 54 + (paddedRowSize 5 3).toNat * 2
    ∧ fileSize 5 2 3 = (writeImage (List.replicate 30 (byte 7)) (fun _ => 0) 5 2 3).length :=
  ⟨⟨by decide, by decide⟩,
    (writeImage_length_is_fileSize (List.replicate 30 (byte 7)) (fun _ => 0) 5 2 3 (by decide)
      (by decide)).1,
    (writeImage_length_is_fileSize (List.replicate 30 (byte 7)) (fun _ => 0) 5 2 3 (by decide)
      (by decide)).2.1⟩


end BMP
